import Mathlib

/-
Shallow embedding of `app/rss_bridge.py` (infinite-rss-reader).

Modelling conventions, fixed once and used throughout:

* Python byte strings are `List Nat` (byte values), Python text strings are
  `List Nat` (Unicode code points; Python `str` may hold lone surrogates, so we
  do not restrict to scalar values at the type level).
* JSON values (the results of `json.loads` and arguments of `json.dumps`) are
  the inductive `JValue`.  Python `None` and JSON `null` are one and the same
  object in this program (`json.loads('null') is None`), so both are `JValue.null`.
  Numbers are modelled as integers: every message this program builds uses only
  integral numbers, and a payload with a fractional/exponent part (a Python
  float) is outside the modelled fragment, so the `loads` model rejects it.
* Python dicts are association lists in insertion order; `d[k] = v` updates the
  first occurrence in place or appends, `del d[k]` removes the first occurrence,
  exactly dict behaviour on duplicate-free key lists.
* `threading.Event` objects are allocated from a counter `next_event`; the table
  `events : List (Nat × Bool)` maps each allocated event to whether it has been
  set.  `event.wait(timeout)` at timeout expiry returns the event's flag.
* `time.time()` is passed in explicitly as a `Nat` parameter `t`.
* Concurrency is sequentialised: a handler's wait window is modelled by the
  list `arrivals` of inbound messages the router thread consumes while the
  handler is blocked; the handler's result is inspected after they are routed.
* Outbound traffic of the router and the HTTP handlers is recorded as the list
  of message values passed to `send_message`, in order of sending.
-/

namespace RSSBridge

/-- Association-list lookup, modelling Python `d[k]` / `d.get(k)` / `k in d`
(first occurrence wins, as in a duplicate-free dict). -/
def dget? {K V : Type} [DecidableEq K] : List (K × V) → K → Option V
  | [], _ => none
  | (k', v) :: rest, k => if k' = k then some v else dget? rest k

/-- Python `d[k] = v`: update the existing entry in place, else append. -/
def dset {K V : Type} [DecidableEq K] : List (K × V) → K → V → List (K × V)
  | [], k, v => [(k, v)]
  | (k', v') :: rest, k, v =>
    if k' = k then (k, v) :: rest else (k', v') :: dset rest k v

/-- Python `del d[k]` (the program always guards deletion with `k in d`). -/
def derase {K V : Type} [DecidableEq K] : List (K × V) → K → List (K × V)
  | [], _ => []
  | (k', v') :: rest, k => if k' = k then rest else (k', v') :: derase rest k

/-- Keys of an association list, in order. -/
def keysOf {K V : Type} (m : List (K × V)) : List K := m.map (fun p => p.1)

/-- JSON values: the model of what `json.loads` returns and `json.dumps`
accepts in this program (integral numbers only; see the header comment). -/
inductive JValue : Type where
  | null : JValue
  | bool : Bool → JValue
  | num : Int → JValue
  | str : List Nat → JValue
  | arr : List JValue → JValue
  | obj : List (List Nat × JValue) → JValue

/-- Code points of a Lean string literal, used to write Python string
constants from the source. -/
def cp (s : String) : List Nat := s.toList.map Char.toNat

/-- Python truthiness (`if x:`) on JSON values: `None`, `False`, `0`, and the
empty string/list/dict are falsy. -/
def jTruthy : JValue → Bool
  | JValue.null => false
  | JValue.bool b => b
  | JValue.num n => decide (n ≠ 0)
  | JValue.str s => decide (s ≠ [])
  | JValue.arr xs => !xs.isEmpty
  | JValue.obj ps => !ps.isEmpty

/-- Python `len(x)`: defined for strings, lists and dicts; `none` models the
`TypeError` that `len` raises on other values. -/
def pyLen : JValue → Option Nat
  | JValue.str s => some s.length
  | JValue.arr xs => some xs.length
  | JValue.obj ps => some ps.length
  | _ => none

/-- Decimal digits by repeated division; the fuel only forces termination and
`natDec` passes more than any value can use. -/
def natDecAux : Nat → Nat → List Nat
  | 0, _ => []
  | fuel + 1, n => if n < 10 then [48 + n] else natDecAux fuel (n / 10) ++ [48 + n % 10]

/-- Decimal digits of a natural number, as ASCII codes (`str(n)` for `n ≥ 0`). -/
def natDec (n : Nat) : List Nat := natDecAux (n + 1) n

/-- Decimal rendering of a Python int, as ASCII codes (`str(i)`). -/
def intDec (n : Int) : List Nat :=
  if n < 0 then 45 :: natDec n.natAbs else natDec n.natAbs

/-- Lowercase hex digit, as in Python's `'{0:04x}'.format`. -/
def hexDig (d : Nat) : Nat := if d < 10 then 48 + d else 87 + d

/-- Four lowercase hex digits of `n < 0x10000` (`'%04x' % n`). -/
def hex4 (n : Nat) : List Nat :=
  [hexDig (n / 4096 % 16), hexDig (n / 256 % 16), hexDig (n / 16 % 16), hexDig (n % 16)]

/-- The escape `json.dumps` (with its default `ensure_ascii=True`) applies to
one code point of a string: the two-character escapes of `ESCAPE_DCT`, raw
output for printable ASCII other than quote and backslash, `\uXXXX` otherwise,
with a surrogate pair for astral code points.  `(n >> 10) & 0x3ff` and
`0xd800 | hi` of the CPython encoder are written `n / 1024 % 1024` and
`0xD800 + hi`, which agree on all inputs reaching this branch. -/
def escChar (c : Nat) : List Nat :=
  if c = 34 then [92, 34]
  else if c = 92 then [92, 92]
  else if c = 8 then [92, 98]
  else if c = 12 then [92, 102]
  else if c = 10 then [92, 110]
  else if c = 13 then [92, 114]
  else if c = 9 then [92, 116]
  else if 32 ≤ c ∧ c < 127 then [c]
  else if c < 65536 then 92 :: 117 :: hex4 c
  else
    (92 :: 117 :: hex4 (55296 + (c - 65536) / 1024 % 1024)) ++
      (92 :: 117 :: hex4 (56320 + (c - 65536) % 1024))

/-- Body of a dumped JSON string (between the quotes). -/
def strBody (s : List Nat) : List Nat := s.flatMap escChar

mutual

/-- `json.dumps(v, separators=(',', ':'))` with the default `ensure_ascii=True`:
the exact payload text `send_message` encodes, as ASCII code points. -/
def dumps : JValue → List Nat
  | JValue.null => [110, 117, 108, 108]
  | JValue.bool true => [116, 114, 117, 101]
  | JValue.bool false => [102, 97, 108, 115, 101]
  | JValue.num n => intDec n
  | JValue.str s => 34 :: (strBody s ++ [34])
  | JValue.arr [] => [91, 93]
  | JValue.arr (x :: xs) => 91 :: (dumps x ++ (dumpsArrRest xs ++ [93]))
  | JValue.obj [] => [123, 125]
  | JValue.obj (p :: ps) => 123 :: (dumpsPair p ++ (dumpsObjRest ps ++ [125]))

/-- Remaining array elements, each preceded by the item separator `,`. -/
def dumpsArrRest : List JValue → List Nat
  | [] => []
  | x :: xs => 44 :: (dumps x ++ dumpsArrRest xs)

/-- One `"key":value` pair of a dumped object. -/
def dumpsPair : List Nat × JValue → List Nat
  | (k, v) => 34 :: (strBody k ++ (34 :: 58 :: dumps v))

/-- Remaining object pairs, each preceded by the item separator `,`. -/
def dumpsObjRest : List (List Nat × JValue) → List Nat
  | [] => []
  | p :: ps => 44 :: (dumpsPair p ++ dumpsObjRest ps)

end

/-- JSON whitespace (`json.decoder`: space, tab, newline, carriage return). -/
def isWs (c : Nat) : Bool := decide (c = 32 ∨ c = 9 ∨ c = 10 ∨ c = 13)

/-- Skip JSON whitespace, as the decoder does between tokens. -/
def skipWs (cs : List Nat) : List Nat := cs.dropWhile isWs

/-- ASCII decimal digit test. -/
def isDigit (c : Nat) : Bool := decide (48 ≤ c ∧ c ≤ 57)

/-- Value of a hex digit, as accepted in a `\uXXXX` escape. -/
def hexVal (c : Nat) : Option Nat :=
  if 48 ≤ c ∧ c ≤ 57 then some (c - 48)
  else if 97 ≤ c ∧ c ≤ 102 then some (c - 87)
  else if 65 ≤ c ∧ c ≤ 70 then some (c - 55)
  else none

/-- The two-character escapes of the JSON grammar (`BACKSLASH` table of
`json.decoder`). -/
def simpleEscape (e : Nat) : Option Nat :=
  if e = 34 then some 34
  else if e = 92 then some 92
  else if e = 47 then some 47
  else if e = 98 then some 8
  else if e = 102 then some 12
  else if e = 110 then some 10
  else if e = 114 then some 13
  else if e = 116 then some 9
  else none

/-- Parse exactly four hex digits (`_decode_uXXXX`). -/
def parseHex4 : List Nat → Option (Nat × List Nat)
  | a :: b :: c :: d :: rest =>
    match hexVal a, hexVal b, hexVal c, hexVal d with
    | some va, some vb, some vc, some vd =>
      some (va * 4096 + vb * 256 + vc * 16 + vd, rest)
    | _, _, _, _ => none
  | _ => none

/-- Lookahead of the decoder after a high-surrogate escape: does a
low-surrogate escape `\uDC00`–`\uDFFF` start here? -/
def isLoEscape (cs : List Nat) : Bool :=
  match cs with
  | e :: u :: a :: b :: c :: d :: _ =>
    match hexVal a, hexVal b, hexVal c, hexVal d with
    | some va, some vb, some vc, some vd =>
      decide (e = 92 ∧ u = 117 ∧ 56320 ≤ va * 4096 + vb * 256 + vc * 16 + vd ∧
        va * 4096 + vb * 256 + vc * 16 + vd ≤ 57343)
    | _, _, _, _ => false
  | _ => false

/-- Value of the low-surrogate escape checked by `isLoEscape`. -/
def loEscapeVal (cs : List Nat) : Nat :=
  match cs with
  | _ :: _ :: a :: b :: c :: d :: _ =>
    match hexVal a, hexVal b, hexVal c, hexVal d with
    | some va, some vb, some vc, some vd => va * 4096 + vb * 256 + vc * 16 + vd
    | _, _, _, _ => 0
  | _ => 0

/-- Body of a fuelled scan of a JSON string after the opening quote
(`py_scanstring`, strict mode): raw control characters are rejected, `\uXXXX`
escapes are decoded, and a high-surrogate escape immediately followed by a
low-surrogate escape is combined into one astral code point (a lone surrogate
escape is kept as is).  `((u1 - 0xd800) << 10) | (u2 - 0xdc00)` of the decoder
is written with `* 1024` and `+`, which agree since `u2 - 0xdc00 < 1024`.  The
fuel only forces termination: every recursive call consumes at least one
character, so `parseStringBody` below passes more than any input can use. -/
def parseStringBodyF : Nat → List Nat → Option (List Nat × List Nat)
  | 0, _ => none
  | fuel + 1, cs =>
    match cs with
    | [] => none
    | c :: rest =>
      if c = 34 then some ([], rest)
      else if c = 92 then
        match rest with
        | [] => none
        | e :: rest1 =>
          if e = 117 then
            match rest1 with
            | a :: b :: c1 :: d :: rest2 =>
              match hexVal a, hexVal b, hexVal c1, hexVal d with
              | some va, some vb, some vc, some vd =>
                let u1 := va * 4096 + vb * 256 + vc * 16 + vd
                if 55296 ≤ u1 ∧ u1 ≤ 56319 then
                  if isLoEscape rest2 then
                    (parseStringBodyF fuel (rest2.drop 6)).map
                      (fun p =>
                        ((65536 + (u1 - 55296) * 1024 + (loEscapeVal rest2 - 56320)) ::
                            p.1,
                          p.2))
                  else (parseStringBodyF fuel rest2).map (fun p => (u1 :: p.1, p.2))
                else (parseStringBodyF fuel rest2).map (fun p => (u1 :: p.1, p.2))
              | _, _, _, _ => none
            | _ => none
          else
            match simpleEscape e with
            | some ch => (parseStringBodyF fuel rest1).map (fun p => (ch :: p.1, p.2))
            | none => none
      else if c < 32 then none
      else (parseStringBodyF fuel rest).map (fun p => (c :: p.1, p.2))

/-- Parse the body of a JSON string after the opening quote. -/
def parseStringBody (cs : List Nat) : Option (List Nat × List Nat) :=
  parseStringBodyF (cs.length + 1) cs

/-- Consume a maximal run of decimal digits, accumulating their value. -/
def takeDigits : Nat → List Nat → Nat × List Nat
  | acc, [] => (acc, [])
  | acc, c :: rest =>
    if isDigit c then takeDigits (acc * 10 + (c - 48)) rest else (acc, c :: rest)

/-- Does a fractional part `(\.\d+)` of the scanner's `NUMBER_RE` start here? -/
def fracMatches : List Nat → Bool
  | c :: d :: _ => if c = 46 then isDigit d else false
  | _ => false

/-- Does an exponent part `([eE][-+]?\d+)` of `NUMBER_RE` start here? -/
def expMatches : List Nat → Bool
  | [] => false
  | c :: rest =>
    if c = 101 ∨ c = 69 then
      match rest with
      | [] => false
      | x :: rest2 =>
        if x = 43 ∨ x = 45 then
          match rest2 with
          | [] => false
          | d :: _ => isDigit d
        else isDigit x
    else false

/-- Parse the unsigned integer part `0|[1-9]\d*` of `NUMBER_RE`.  When a
fraction or exponent part follows, `json.loads` builds a Python float, which
is outside the modelled value fragment, so the model rejects it. -/
def parseUNumber (cs : List Nat) : Option (Nat × List Nat) :=
  match cs with
  | [] => none
  | c :: rest =>
    if c = 48 then
      if fracMatches rest || expMatches rest then none else some (0, rest)
    else if 49 ≤ c ∧ c ≤ 57 then
      let p := takeDigits (c - 48) rest
      if fracMatches p.2 || expMatches p.2 then none else some (p.1, p.2)
    else none

/-- Parse a JSON number with optional leading minus. -/
def parseNumber (cs : List Nat) : Option (JValue × List Nat) :=
  match cs with
  | [] => none
  | c :: rest =>
    if c = 45 then
      (parseUNumber rest).map (fun p => (JValue.num (-(p.1 : Int)), p.2))
    else (parseUNumber cs).map (fun p => (JValue.num ((p.1 : Nat) : Int), p.2))

mutual

/-- One JSON value, starting at (possibly whitespace-preceded) `cs`; the model
of the scanner's `_scan_once` dispatch together with the whitespace skipping
its callers perform before every value.  `fuel` only bounds the nesting the
parser will follow; `loads` passes more than any input can need. -/
def parseValue : Nat → List Nat → Option (JValue × List Nat)
  | 0, _ => none
  | fuel + 1, cs =>
    match skipWs cs with
    | [] => none
    | c :: rest =>
      if c = 34 then (parseStringBody rest).map (fun p => (JValue.str p.1, p.2))
      else if c = 123 then
        match skipWs rest with
        | [] => none
        | c2 :: r2 =>
          if c2 = 125 then some (JValue.obj [], r2)
          else if c2 = 34 then parseObjLoop fuel r2 []
          else none
      else if c = 91 then
        match skipWs rest with
        | [] => none
        | c2 :: r2 =>
          if c2 = 93 then some (JValue.arr [], r2)
          else (parseArrLoop fuel (c2 :: r2)).map (fun p => (JValue.arr p.1, p.2))
      else if c = 116 then
        match rest with
        | 114 :: 117 :: 101 :: r => some (JValue.bool true, r)
        | _ => none
      else if c = 102 then
        match rest with
        | 97 :: 108 :: 115 :: 101 :: r => some (JValue.bool false, r)
        | _ => none
      else if c = 110 then
        match rest with
        | 117 :: 108 :: 108 :: r => some (JValue.null, r)
        | _ => none
      else if c = 45 ∨ isDigit c then parseNumber (c :: rest)
      else none

/-- Array elements after `[` (at least one; `JSONArray`'s value/comma loop). -/
def parseArrLoop : Nat → List Nat → Option (List JValue × List Nat)
  | 0, _ => none
  | fuel + 1, cs =>
    match parseValue fuel cs with
    | none => none
    | some (v, r) =>
      match skipWs r with
      | [] => none
      | c2 :: r2 =>
        if c2 = 44 then (parseArrLoop fuel r2).map (fun p => (v :: p.1, p.2))
        else if c2 = 93 then some ([v], r2)
        else none

/-- Object members after the opening quote of a key (`JSONObject`'s loop);
pairs are accumulated with dict insertion, so a duplicate key keeps its first
position and last value, as `dict(pairs)` does. -/
def parseObjLoop : Nat → List Nat → List (List Nat × JValue) → Option (JValue × List Nat)
  | 0, _, _ => none
  | fuel + 1, cs, acc =>
    match parseStringBody cs with
    | none => none
    | some (k, r1) =>
      match skipWs r1 with
      | [] => none
      | c2 :: r2 =>
        if c2 = 58 then
          match parseValue fuel r2 with
          | none => none
          | some (v, r3) =>
            match skipWs r3 with
            | [] => none
            | c3 :: r4 =>
              if c3 = 44 then
                match skipWs r4 with
                | [] => none
                | c4 :: r5 =>
                  if c4 = 34 then parseObjLoop fuel r5 (dset acc k v) else none
              else if c3 = 125 then some (JValue.obj (dset acc k v), r4)
              else none
        else none

end

/-- `json.loads` on code points: skip whitespace, scan one value, and require
only whitespace to remain (else `Extra data`).  Inputs whose number tokens
carry a fraction or exponent (Python floats) and the `NaN`/`Infinity` literals
are outside the modelled fragment and rejected; no message this program
constructs uses them. -/
def loads (cs : List Nat) : Option JValue :=
  match parseValue (cs.length + 1) cs with
  | some (v, rest) => if (skipWs rest).isEmpty then some v else none
  | none => none

/-- UTF-8 encoding of a code-point sequence (`str.encode('utf-8')`); `none`
models the `UnicodeEncodeError` raised on surrogates or out-of-range values. -/
def utf8Encode : List Nat → Option (List Nat)
  | [] => some []
  | c :: cs =>
    if c < 128 then (utf8Encode cs).map (fun bs => c :: bs)
    else if c < 2048 then
      (utf8Encode cs).map (fun bs => (192 + c / 64) :: ((128 + c % 64) :: bs))
    else if 55296 ≤ c ∧ c ≤ 57343 then none
    else if c < 65536 then
      (utf8Encode cs).map
        (fun bs => (224 + c / 4096) :: ((128 + c / 64 % 64) :: ((128 + c % 64) :: bs)))
    else if c < 1114112 then
      (utf8Encode cs).map
        (fun bs =>
          (240 + c / 262144) ::
            ((128 + c / 4096 % 64) :: ((128 + c / 64 % 64) :: ((128 + c % 64) :: bs))))
    else none

/-- Strict UTF-8 decoding of a byte sequence (`bytes.decode('utf-8')`); `none`
models `UnicodeDecodeError` (continuation errors, overlong forms, surrogates,
out-of-range lead bytes).  Written with a fuel parameter so the recursion is
structural; every step consumes at least one byte, so `utf8Decode` below can
always supply enough fuel. -/
def utf8DecodeF : Nat → List Nat → Option (List Nat)
  | _, [] => some []
  | 0, _ :: _ => none
  | fuel + 1, b :: bs =>
    if b < 128 then (utf8DecodeF fuel bs).map (fun cs => b :: cs)
    else if b < 194 then none
    else if b < 224 then
      match bs with
      | b1 :: bs1 =>
        if 128 ≤ b1 ∧ b1 < 192 then
          (utf8DecodeF fuel bs1).map (fun cs => ((b - 192) * 64 + (b1 - 128)) :: cs)
        else none
      | [] => none
    else if b < 240 then
      match bs with
      | b1 :: b2 :: bs2 =>
        if (128 ≤ b1 ∧ b1 < 192) ∧ (128 ≤ b2 ∧ b2 < 192) ∧
            (b = 224 → 160 ≤ b1) ∧ (b = 237 → b1 < 160) then
          (utf8DecodeF fuel bs2).map
            (fun cs => ((b - 224) * 4096 + (b1 - 128) * 64 + (b2 - 128)) :: cs)
        else none
      | _ => none
    else if b < 245 then
      match bs with
      | b1 :: b2 :: b3 :: bs3 =>
        if (128 ≤ b1 ∧ b1 < 192) ∧ (128 ≤ b2 ∧ b2 < 192) ∧ (128 ≤ b3 ∧ b3 < 192) ∧
            (b = 240 → 144 ≤ b1) ∧ (b = 244 → b1 < 144) then
          (utf8DecodeF fuel bs3).map
            (fun cs =>
              ((b - 240) * 262144 + (b1 - 128) * 4096 + (b2 - 128) * 64 + (b3 - 128)) :: cs)
        else none
      | _ => none
    else none

/-- `bytes.decode('utf-8')` on a whole byte sequence. -/
def utf8Decode (bs : List Nat) : Option (List Nat) := utf8DecodeF (bs.length + 1) bs

/-- `struct.pack('@I', n)` on the program's little-endian hosts; `none` models
the `struct.error` on values that do not fit 32 bits.  Packing and unpacking
use the same native byte order, so every theorem below is independent of the
choice. -/
def packLE (n : Nat) : Option (List Nat) :=
  if n < 4294967296 then
    some [n % 256, n / 256 % 256, n / 65536 % 256, n / 16777216 % 256]
  else none

/-- `struct.unpack('@I', b)[0]` for a 4-byte buffer. -/
def unpackLE (b : List Nat) : Nat :=
  match b with
  | b0 :: b1 :: b2 :: b3 :: _ => b0 + b1 * 256 + b2 * 65536 + b3 * 16777216
  | _ => 0

/-- `send_message(message_content)`: JSON-encode, UTF-8-encode, length-prefix
and write.  The result is the byte sequence written to stdout; `none` models
the caught exception path, on which nothing at all is written. -/
def send_message (m : JValue) : Option (List Nat) :=
  match utf8Encode (dumps m) with
  | none => none
  | some payload =>
    match packLE payload.length with
    | none => none
    | some prefixBytes => some (prefixBytes ++ payload)

/-- `get_message()` on the remaining stdin bytes: read a 4-byte length prefix,
read that many payload bytes, UTF-8-decode and JSON-decode.  The Python
function returns `None` both on end of stream (empty prefix read) and on any
caught exception (short prefix, undecodable payload) — and a well-formed
`null` payload also yields `None`; all three are `JValue.null` here, which is
exactly the conflation the caller observes.  Also returns the bytes left
unconsumed on the stream. -/
def get_message (stream : List Nat) : JValue × List Nat :=
  let raw := stream.take 4
  if raw.length = 0 then (JValue.null, stream.drop 4)
  else if raw.length < 4 then (JValue.null, stream.drop 4)
  else
    let len := unpackLE raw
    let body := (stream.drop 4).take len
    let rest := (stream.drop 4).drop len
    match utf8Decode body with
    | none => (JValue.null, rest)
    | some cs =>
      match loads cs with
      | none => (JValue.null, rest)
      | some v => (v, rest)

/-- One pending entry of a result table: the id of its `threading.Event` and
its result slot (field `success` for mark-read, `data` for the others). -/
structure Waiter : Type where
  event : Nat
  value : JValue

/-- `BridgeState`: `latest_rss_data` is split into its two dict fields; the
three result tables are keyed by the id strings the HTTP layer registers (an
inbound id of any other JSON type can never equal a registered `str` key in a
Python dict, so the router completes nothing for it); `events`/`next_event`
model the allocation and flags of `threading.Event` objects. -/
structure BState : Type where
  unread_items : JValue
  timestamp : Nat
  data_update_event : Bool
  mark_read_results : List (List Nat × Waiter)
  single_item_results : List (List Nat × Waiter)
  folder_results : List (List Nat × Waiter)
  events : List (Nat × Bool)
  next_event : Nat

/-- The state `BridgeState.__init__` builds. -/
def initState : BState where
  unread_items := JValue.arr []
  timestamp := 0
  data_update_event := false
  mark_read_results := []
  single_item_results := []
  folder_results := []
  events := []
  next_event := 0

/-- Is the event with this id set (`event.is_set()`, what `event.wait` reports
at timeout expiry)? -/
def eventIsSet (evs : List (Nat × Bool)) (i : Nat) : Bool := (dget? evs i).getD false

/-- `BridgeState.update_rss_data(data)` at time `t`. -/
def update_rss_data (s : BState) (t : Nat) (data : JValue) : BState :=
  { s with unread_items := data, timestamp := t, data_update_event := true }

/-- `BridgeState.get_rss_data()`. -/
def get_rss_data (s : BState) : JValue := s.unread_items

/-- `BridgeState.register_mark_read_request(item_id)`: a fresh unset event and
`{"event": event, "success": False}`; returns the event (its id) and the new
state. -/
def register_mark_read_request (s : BState) (item_id : List Nat) : Nat × BState :=
  (s.next_event,
    { s with
      events := s.events ++ [(s.next_event, false)]
      next_event := s.next_event + 1
      mark_read_results :=
        dset s.mark_read_results item_id ⟨s.next_event, JValue.bool false⟩ })

/-- `BridgeState.complete_mark_read_request(item_id, success)`. -/
def complete_mark_read_request (s : BState) (item_id : List Nat) (success : JValue) :
    BState :=
  match dget? s.mark_read_results item_id with
  | none => s
  | some w =>
    { s with
      mark_read_results := dset s.mark_read_results item_id ⟨w.event, success⟩
      events := dset s.events w.event true }

/-- `BridgeState.get_mark_read_result(item_id)`: read and delete if present,
else `False`. -/
def get_mark_read_result (s : BState) (item_id : List Nat) : JValue × BState :=
  match dget? s.mark_read_results item_id with
  | some w => (w.value, { s with mark_read_results := derase s.mark_read_results item_id })
  | none => (JValue.bool false, s)

/-- `BridgeState.cleanup_mark_read_request(item_id)`. -/
def cleanup_mark_read_request (s : BState) (item_id : List Nat) : BState :=
  { s with mark_read_results := derase s.mark_read_results item_id }

/-- `BridgeState.register_single_item_request(item_id)`:
`{"event": event, "data": None}`. -/
def register_single_item_request (s : BState) (item_id : List Nat) : Nat × BState :=
  (s.next_event,
    { s with
      events := s.events ++ [(s.next_event, false)]
      next_event := s.next_event + 1
      single_item_results :=
        dset s.single_item_results item_id ⟨s.next_event, JValue.null⟩ })

/-- `BridgeState.complete_single_item_request(item_id, data)`. -/
def complete_single_item_request (s : BState) (item_id : List Nat) (data : JValue) :
    BState :=
  match dget? s.single_item_results item_id with
  | none => s
  | some w =>
    { s with
      single_item_results := dset s.single_item_results item_id ⟨w.event, data⟩
      events := dset s.events w.event true }

/-- `BridgeState.get_single_item_result(item_id)`: read and delete if present,
else `None`. -/
def get_single_item_result (s : BState) (item_id : List Nat) : JValue × BState :=
  match dget? s.single_item_results item_id with
  | some w =>
    (w.value, { s with single_item_results := derase s.single_item_results item_id })
  | none => (JValue.null, s)

/-- `BridgeState.cleanup_single_item_request(item_id)`. -/
def cleanup_single_item_request (s : BState) (item_id : List Nat) : BState :=
  { s with single_item_results := derase s.single_item_results item_id }

/-- `BridgeState.register_folder_request(folder_path)`:
`{"event": event, "data": []}`. -/
def register_folder_request (s : BState) (folder_path : List Nat) : Nat × BState :=
  (s.next_event,
    { s with
      events := s.events ++ [(s.next_event, false)]
      next_event := s.next_event + 1
      folder_results := dset s.folder_results folder_path ⟨s.next_event, JValue.arr []⟩ })

/-- `BridgeState.complete_folder_request(folder_path, data)`. -/
def complete_folder_request (s : BState) (folder_path : List Nat) (data : JValue) :
    BState :=
  match dget? s.folder_results folder_path with
  | none => s
  | some w =>
    { s with
      folder_results := dset s.folder_results folder_path ⟨w.event, data⟩
      events := dset s.events w.event true }

/-- `BridgeState.get_folder_result(folder_path)`: read and delete if present,
else `[]`. -/
def get_folder_result (s : BState) (folder_path : List Nat) : JValue × BState :=
  match dget? s.folder_results folder_path with
  | some w => (w.value, { s with folder_results := derase s.folder_results folder_path })
  | none => (JValue.arr [], s)

/-- `BridgeState.cleanup_folder_request(folder_path)`. -/
def cleanup_folder_request (s : BState) (folder_path : List Nat) : BState :=
  { s with folder_results := derase s.folder_results folder_path }

/-- Python `received_message.get(k)` on a decoded JSON dict (`None` ≅ `null`
when the key is absent). -/
def jget (fields : List (List Nat × JValue)) (k : List Nat) : JValue :=
  (dget? fields k).getD JValue.null

/-- Python `received_message.get(k, d)`. -/
def jgetD (fields : List (List Nat × JValue)) (k : List Nat) (d : JValue) : JValue :=
  (dget? fields k).getD d

/-- The `{"status": "received"}` acknowledgment. -/
def ackReceived : JValue := JValue.obj [(cp "status", JValue.str (cp "received"))]

/-- The `{"status": "acknowledged"}` acknowledgment. -/
def ackAcknowledged : JValue :=
  JValue.obj [(cp "status", JValue.str (cp "acknowledged"))]

/-- One iteration body of `main`'s message loop, for an already-decoded
non-`None` message: the dispatch on `received_message.get("type")` (with the
`"ping"`/`"pong"` probe for non-dict messages), returning the new state and
the messages sent.  A `type`, unmatched discriminator, or non-dict non-ping
message falls through every branch: logged and skipped. -/
def routerStep (t : Nat) (s : BState) (msg : JValue) : BState × List JValue :=
  match msg with
  | JValue.obj fields =>
    match jget fields (cp "type") with
    | JValue.str ty =>
      if ty = cp "rssData" then
        (update_rss_data s t (jgetD fields (cp "data") (JValue.arr [])), [ackReceived])
      else if ty = cp "singleItemData" then
        (match jget fields (cp "itemId") with
          | JValue.str iid => complete_single_item_request s iid (jget fields (cp "data"))
          | _ => s,
          [ackAcknowledged])
      else if ty = cp "folderData" then
        (match jget fields (cp "folderPath") with
          | JValue.str fp =>
            complete_folder_request s fp (jgetD fields (cp "data") (JValue.arr []))
          | _ => s,
          [ackAcknowledged])
      else if ty = cp "markReadResult" then
        (match jget fields (cp "itemId") with
          | JValue.str iid =>
            complete_mark_read_request s iid (jgetD fields (cp "success") (JValue.bool false))
          | _ => s,
          [ackAcknowledged])
      else (s, [])
    | _ => (s, [])
  | JValue.str sv =>
    if sv = cp "ping" then (s, [JValue.str (cp "pong")]) else (s, [])
  | _ => (s, [])

/-- Route a sequence of inbound messages through `routerStep`, collecting the
messages sent. -/
def routerRun (t : Nat) (s : BState) (msgs : List JValue) : BState × List JValue :=
  match msgs with
  | [] => (s, [])
  | m :: ms =>
    let p := routerStep t s m
    let q := routerRun t p.1 ms
    (q.1, p.2 ++ q.2)

/-- An HTTP response as the handlers produce it: status code and JSON body. -/
structure HResp : Type where
  status : Nat
  body : JValue

/-- `RSSHandler._send_json(data, status)`. -/
def sendJson (data : JValue) (status : Nat) : HResp := ⟨status, data⟩

/-- `RSSHandler._send_error(message, status)`. -/
def sendError (message : List Nat) (status : Nat) : HResp :=
  ⟨status,
    JValue.obj [(cp "error", JValue.str message), (cp "status", JValue.str (cp "error"))]⟩

/-- `RSSHandler.handle_get_unread()`: clear the update event, send
`{"action": "getUnreadRSS"}`, let the router consume `arrivals` during the
20-second wait, then branch on whether the event got set.  The `len(items)`
call raises `TypeError` on a non-sized value, which `do_GET` turns into a 500
error response. -/
def handle_get_unread (s : BState) (arrivals : List JValue) (t : Nat) :
    HResp × List JValue × BState :=
  let s1 : BState := { s with data_update_event := false }
  let req : JValue := JValue.obj [(cp "action", JValue.str (cp "getUnreadRSS"))]
  let p := routerRun t s1 arrivals
  if p.1.data_update_event then
    let items := get_rss_data p.1
    match pyLen items with
    | some n =>
      (sendJson
        (JValue.obj
          [(cp "status", JValue.str (cp "success")), (cp "data", items),
            (cp "count", JValue.num (n : Int))])
        200,
        req :: p.2, p.1)
    | none => (sendError (cp "object of type has no len()") 500, req :: p.2, p.1)
  else
    let items := get_rss_data p.1
    (sendJson
      (JValue.obj
        [(cp "status", JValue.str (cp "timeout")), (cp "data", items),
          (cp "message", JValue.str (cp "Timeout waiting for fresh data, returning cached."))])
      200,
      req :: p.2, p.1)

/-- Python `if not item_id:` on `query_params.get(k, [None])[0]`: `None` or the
empty string. -/
def blankParam : Option (List Nat) → Bool
  | none => true
  | some s => s.isEmpty

/-- `RSSHandler.handle_mark_read(query_params)`: missing/empty `itemId` is
rejected with a 400 before anything else happens; otherwise register, send
`{"action": "markAsRead", "itemId": item_id}`, wait (the router consumes
`arrivals`), and either consume the result (status by Python truthiness of the
stored `success`) or clean up and answer 504. -/
def handle_mark_read (s : BState) (itemId? : Option (List Nat)) (arrivals : List JValue)
    (t : Nat) : HResp × List JValue × BState :=
  if blankParam itemId? then (sendError (cp "itemId is required") 400, [], s)
  else
    let item_id := itemId?.getD []
    let r := register_mark_read_request s item_id
    let req : JValue :=
      JValue.obj [(cp "action", JValue.str (cp "markAsRead")), (cp "itemId", JValue.str item_id)]
    let p := routerRun t r.2 arrivals
    if eventIsSet p.1.events r.1 then
      let g := get_mark_read_result p.1 item_id
      let ok := jTruthy g.1
      (sendJson
        (JValue.obj
          [(cp "status", JValue.str (cp (if ok then "success" else "failed"))),
            (cp "message",
              JValue.str
                (cp "Item " ++ item_id ++
                  cp (if ok then " marked as read" else " failed to mark as read")))])
        200,
        req :: p.2, g.2)
    else
      (sendError (cp "Operation timed out") 504, req :: p.2,
        cleanup_mark_read_request p.1 item_id)

/-- `RSSHandler.handle_get_item(query_params)`: like mark-read with a
10-second wait; after a successful wait, a falsy stored item (`None`, and in
particular a `null` or missing `data` payload) is answered with a 404. -/
def handle_get_item (s : BState) (itemId? : Option (List Nat)) (arrivals : List JValue)
    (t : Nat) : HResp × List JValue × BState :=
  if blankParam itemId? then (sendError (cp "itemId is required") 400, [], s)
  else
    let item_id := itemId?.getD []
    let r := register_single_item_request s item_id
    let req : JValue :=
      JValue.obj
        [(cp "action", JValue.str (cp "getSingleItem")), (cp "itemId", JValue.str item_id)]
    let p := routerRun t r.2 arrivals
    if eventIsSet p.1.events r.1 then
      let g := get_single_item_result p.1 item_id
      if jTruthy g.1 then
        (sendJson
          (JValue.obj [(cp "status", JValue.str (cp "success")), (cp "data", g.1)]) 200,
          req :: p.2, g.2)
      else (sendError (cp "Item not found") 404, req :: p.2, g.2)
    else
      (sendError (cp "Operation timed out") 504, req :: p.2,
        cleanup_single_item_request p.1 item_id)

/-- `RSSHandler.handle_get_folder(query_params)`: missing/empty `folder` is a
400; otherwise register, send `{"action": "getFolderItems", "folderPath": ...}`,
wait 30 seconds, and either return the items (`len` as in `handle_get_unread`)
or clean up and answer 504. -/
def handle_get_folder (s : BState) (folder? : Option (List Nat)) (arrivals : List JValue)
    (t : Nat) : HResp × List JValue × BState :=
  if blankParam folder? then (sendError (cp "folder is required") 400, [], s)
  else
    let folder_path := folder?.getD []
    let r := register_folder_request s folder_path
    let req : JValue :=
      JValue.obj
        [(cp "action", JValue.str (cp "getFolderItems")),
          (cp "folderPath", JValue.str folder_path)]
    let p := routerRun t r.2 arrivals
    if eventIsSet p.1.events r.1 then
      let g := get_folder_result p.1 folder_path
      match pyLen g.1 with
      | some n =>
        (sendJson
          (JValue.obj
            [(cp "status", JValue.str (cp "success")), (cp "data", g.1),
              (cp "count", JValue.num (n : Int)),
              (cp "folderPath", JValue.str folder_path)])
          200,
          req :: p.2, g.2)
      | none => (sendError (cp "object of type has no len()") 500, req :: p.2, g.2)
    else
      (sendError (cp "Operation timed out") 504, req :: p.2,
        cleanup_folder_request p.1 folder_path)

/-- The `while True` read loop of `main`, fuelled (the fuel is spent at most
once per 4 consumed prefix bytes, so `stream.length + 1` always suffices):
read one message; `None` — from end of stream, a malformed frame, or a `null`
payload — breaks the loop; anything else is dispatched by `routerStep` and the
loop continues on the remaining bytes. -/
def mainLoopFuel (t : Nat) : Nat → BState → List Nat → BState × List JValue
  | 0, s, _ => (s, [])
  | fuel + 1, s, stream =>
    let g := get_message stream
    match g.1 with
    | JValue.null => (s, [])
    | m =>
      let p := routerStep t s m
      let q := mainLoopFuel t fuel p.1 g.2
      (q.1, p.2 ++ q.2)

/-- `main`'s message loop on a whole stdin byte stream. -/
def main_loop (t : Nat) (s : BState) (stream : List Nat) : BState × List JValue :=
  mainLoopFuel t (stream.length + 1) s stream

/-- All code points of a string are Unicode scalar values (what a `str` that
round-trips must satisfy: no lone or paired surrogates, nothing above
U+10FFFF). -/
def goodStr (s : List Nat) : Bool :=
  s.all (fun c => decide (c < 1114112 ∧ ¬(55296 ≤ c ∧ c ≤ 57343)))

/-- Boolean duplicate-freedom of an association list's keys. -/
def noDupKeys {K V : Type} [DecidableEq K] : List (K × V) → Bool
  | [] => true
  | (k, _) :: rest => !(dget? rest k).isSome && noDupKeys rest

mutual

/-- Well-formed JSON values: all strings are scalar-valued and all object key
lists are duplicate-free (what any value decoded from a JSON text satisfies,
and the fragment on which dump/load round-trips). -/
def wfJ : JValue → Bool
  | JValue.null => true
  | JValue.bool _ => true
  | JValue.num _ => true
  | JValue.str s => goodStr s
  | JValue.arr xs => wfList xs
  | JValue.obj ps => noDupKeys ps && wfPairs ps

/-- `wfJ` on every element. -/
def wfList : List JValue → Bool
  | [] => true
  | x :: xs => wfJ x && wfList xs

/-- `goodStr` on every key and `wfJ` on every value. -/
def wfPairs : List (List Nat × JValue) → Bool
  | [] => true
  | (k, v) :: ps => goodStr k && wfJ v && wfPairs ps

end

mutual

/-- Fuel needed by `parseValue` on a dumped value (one unit per value). -/
def mJ : JValue → Nat
  | JValue.arr xs => mList xs + 1
  | JValue.obj ps => mPairs ps + 1
  | _ => 1

/-- Fuel needed by `parseArrLoop` for a list of elements. -/
def mList : List JValue → Nat
  | [] => 0
  | x :: xs => mJ x + 1 + mList xs

/-- Fuel needed by `parseObjLoop` for a list of pairs. -/
def mPairs : List (List Nat × JValue) → Nat
  | [] => 0
  | p :: ps => mJ p.2 + 1 + mPairs ps

end

/-- May parsing resume here after a complete dumped value?  True exactly at
the ends of values inside dumped JSON: end of input or an item/container
terminator.  (Needed because the number scanner is greedy.) -/
def okAfter : List Nat → Prop
  | [] => True
  | c :: _ => c = 44 ∨ c = 93 ∨ c = 125

/-- The event ids held by the entries of one result table. -/
def evsOf (m : List (List Nat × Waiter)) : List Nat := m.map (fun p => p.2.event)

/-- The event ids held by entries of the three result tables. -/
def evIds (s : BState) : List Nat :=
  evsOf s.mark_read_results ++ (evsOf s.single_item_results ++ evsOf s.folder_results)

/-- The structural invariant of `BridgeState` (every reachable state has it):
each result table has duplicate-free keys — at most one waiter per correlation
key — the events referenced by waiters are pairwise distinct and were all
allocated before `next_event`, and the event table itself has duplicate-free,
allocated ids. -/
structure WF (s : BState) : Prop where
  markNodup : (keysOf s.mark_read_results).Nodup
  itemNodup : (keysOf s.single_item_results).Nodup
  folderNodup : (keysOf s.folder_results).Nodup
  evNodup : (evIds s).Nodup
  evBound : ∀ e ∈ evIds s, e < s.next_event
  domNodup : (s.events.map (fun p => p.1)).Nodup
  domBound : ∀ p ∈ s.events, p.1 < s.next_event

/-- Is `m` the inbound completion `{"type": "markReadResult", "itemId": id}`
for this specific id (the message shape that completes a mark-read waiter)? -/
def isMarkReadResultFor (id : List Nat) (m : JValue) : Prop :=
  ∃ fields, m = JValue.obj fields ∧
    jget fields (cp "type") = JValue.str (cp "markReadResult") ∧
    jget fields (cp "itemId") = JValue.str id

/-- Is `m` the inbound completion `{"type": "singleItemData", "itemId": id, ...}`
for this specific id? -/
def isSingleItemDataFor (id : List Nat) (m : JValue) : Prop :=
  ∃ fields, m = JValue.obj fields ∧
    jget fields (cp "type") = JValue.str (cp "singleItemData") ∧
    jget fields (cp "itemId") = JValue.str id

/-- Is `m` the inbound completion `{"type": "folderData", "folderPath": id, ...}`
for this specific folder? -/
def isFolderDataFor (id : List Nat) (m : JValue) : Prop :=
  ∃ fields, m = JValue.obj fields ∧
    jget fields (cp "type") = JValue.str (cp "folderData") ∧
    jget fields (cp "folderPath") = JValue.str id

/-- Is `m` an `{"type": "rssData", ...}` broadcast update? -/
def isRssData (m : JValue) : Prop :=
  ∃ fields, m = JValue.obj fields ∧ jget fields (cp "type") = JValue.str (cp "rssData")

theorem dget?_cons_self {K V : Type} [DecidableEq K] (k : K) (v : V) (rest : List (K × V)) :
    dget? ((k, v) :: rest) k = some v := by
  simp [dget?]

theorem dget?_cons_ne {K V : Type} [DecidableEq K] (k0 k : K) (v : V) (rest : List (K × V))
    (h : ¬k0 = k) : dget? ((k0, v) :: rest) k = dget? rest k := by
  simp [dget?, h]

theorem Waiter.event_mk (e : Nat) (v : JValue) : (Waiter.mk e v).event = e := rfl

theorem dset_cons_self {K V : Type} [DecidableEq K] (k : K) (v0 v : V) (rest : List (K × V)) :
    dset ((k, v0) :: rest) k v = (k, v) :: rest := by
  simp [dset]

theorem dset_cons_ne {K V : Type} [DecidableEq K] (k0 k : K) (v0 v : V) (rest : List (K × V))
    (h : ¬k0 = k) : dset ((k0, v0) :: rest) k v = (k0, v0) :: dset rest k v := by
  simp [dset, h]

theorem derase_cons_self {K V : Type} [DecidableEq K] (k : K) (v0 : V) (rest : List (K × V)) :
    derase ((k, v0) :: rest) k = rest := by
  simp [derase]

theorem derase_cons_ne {K V : Type} [DecidableEq K] (k0 k : K) (v0 : V) (rest : List (K × V))
    (h : ¬k0 = k) : derase ((k0, v0) :: rest) k = (k0, v0) :: derase rest k := by
  simp [derase, h]

theorem dget?_dset_self {K V : Type} [DecidableEq K] (m : List (K × V)) (k : K) (v : V) :
    dget? (dset m k v) k = some v := by
  induction m with
  | nil => simp [dget?, dset]
  | cons p rest ih =>
    obtain ⟨k', v'⟩ := p
    by_cases h : k' = k
    · subst h; simp [dget?, dset]
    · simp [dget?, dset, h, ih]

theorem dget?_dset_ne {K V : Type} [DecidableEq K] (m : List (K × V)) (k k' : K) (v : V)
    (h : k' ≠ k) : dget? (dset m k v) k' = dget? m k' := by
  have h' : ¬k = k' := fun hh => h hh.symm
  induction m with
  | nil => simp [dget?, dset, h']
  | cons p rest ih =>
    obtain ⟨k0, v0⟩ := p
    by_cases h0 : k0 = k
    · subst h0; simp [dget?, dset, h']
    · by_cases h1 : k0 = k'
      · subst h1; simp [dget?, dset, h0]
      · simp [dget?, dset, h0, h1, ih]

theorem dget?_derase_ne {K V : Type} [DecidableEq K] (m : List (K × V)) (k k' : K)
    (h : k' ≠ k) : dget? (derase m k) k' = dget? m k' := by
  have h' : ¬k = k' := fun hh => h hh.symm
  induction m with
  | nil => simp [derase]
  | cons p rest ih =>
    obtain ⟨k0, v0⟩ := p
    by_cases h0 : k0 = k
    · subst h0; simp [dget?, derase, h']
    · by_cases h1 : k0 = k'
      · subst h1; simp [dget?, derase, h0]
      · simp [dget?, derase, h0, h1, ih]

theorem dget?_none_of_not_mem_keys {K V : Type} [DecidableEq K] (m : List (K × V)) (k : K)
    (h : k ∉ keysOf m) : dget? m k = none := by
  induction m with
  | nil => simp [dget?]
  | cons p rest ih =>
    obtain ⟨k0, v0⟩ := p
    have hne : ¬k0 = k := by
      intro hh; subst hh; exact h (by simp [keysOf])
    have hrest : k ∉ keysOf rest := by
      intro hh
      refine h ?_
      simp only [keysOf, List.map_cons, List.mem_cons]
      exact Or.inr (by simpa [keysOf] using hh)
    rw [dget?_cons_ne _ _ _ _ hne]
    exact ih hrest

theorem dget?_derase_self {K V : Type} [DecidableEq K] (m : List (K × V)) (k : K)
    (h : (keysOf m).Nodup) : dget? (derase m k) k = none := by
  induction m with
  | nil => simp [derase, dget?]
  | cons p rest ih =>
    obtain ⟨k0, v0⟩ := p
    simp only [keysOf, List.map_cons, List.nodup_cons] at h
    by_cases h0 : k0 = k
    · subst h0
      simp only [derase, if_pos rfl]
      exact dget?_none_of_not_mem_keys rest k0 (by simpa [keysOf] using h.1)
    · simp only [derase, if_neg h0, dget?, if_neg h0]
      exact ih h.2

theorem derase_sublist {K V : Type} [DecidableEq K] (m : List (K × V)) (k : K) :
    (derase m k).Sublist m := by
  induction m with
  | nil => simp [derase]
  | cons p rest ih =>
    obtain ⟨k0, v0⟩ := p
    by_cases h0 : k0 = k
    · simp only [derase, if_pos h0]
      exact List.sublist_cons_self _ _
    · simp only [derase, if_neg h0]
      exact ih.cons₂ _

theorem keysOf_derase_sublist {K V : Type} [DecidableEq K] (m : List (K × V)) (k : K) :
    (keysOf (derase m k)).Sublist (keysOf m) :=
  (derase_sublist m k).map _

theorem keysOf_dset_of_mem {K V : Type} [DecidableEq K] (m : List (K × V)) (k : K) (v : V)
    (h : (dget? m k).isSome) : keysOf (dset m k v) = keysOf m := by
  induction m with
  | nil => simp [dget?] at h
  | cons p rest ih =>
    obtain ⟨k0, v0⟩ := p
    by_cases h0 : k0 = k
    · subst h0; simp [dset, keysOf]
    · simp only [dget?, if_neg h0] at h
      have := ih h
      simp only [keysOf] at this
      simp [dset, if_neg h0, keysOf, this]

theorem keysOf_dset_of_not_mem {K V : Type} [DecidableEq K] (m : List (K × V)) (k : K)
    (v : V) (h : dget? m k = none) : keysOf (dset m k v) = keysOf m ++ [k] := by
  induction m with
  | nil => simp [dset, keysOf]
  | cons p rest ih =>
    obtain ⟨k0, v0⟩ := p
    by_cases h0 : k0 = k
    · subst h0; simp [dget?] at h
    · simp only [dget?, if_neg h0] at h
      have := ih h
      simp only [keysOf] at this
      simp [dset, if_neg h0, keysOf, this]

theorem map_event_dset_same {K : Type} [DecidableEq K] (m : List (K × Waiter)) (k : K)
    (w : Waiter) (x : JValue) (h : dget? m k = some w) :
    (dset m k ⟨w.event, x⟩).map (fun p => p.2.event) = m.map (fun p => p.2.event) := by
  induction m with
  | nil => simp [dget?] at h
  | cons p rest ih =>
    obtain ⟨k0, w0⟩ := p
    by_cases h0 : k0 = k
    · subst h0
      rw [dget?_cons_self] at h
      have hw : w0 = w := Option.some.inj h
      subst hw
      simp [dset]
    · rw [dget?_cons_ne _ _ _ _ h0] at h
      simp [dset, if_neg h0, ih h]

theorem event_mem_of_dget? {K : Type} [DecidableEq K] (m : List (K × Waiter)) (k : K)
    (w : Waiter) (h : dget? m k = some w) : w.event ∈ m.map (fun p => p.2.event) := by
  induction m with
  | nil => simp [dget?] at h
  | cons p rest ih =>
    obtain ⟨k0, w0⟩ := p
    by_cases h0 : k0 = k
    · subst h0
      rw [dget?_cons_self] at h
      have hw : w0 = w := Option.some.inj h
      subst hw
      simp
    · rw [dget?_cons_ne _ _ _ _ h0] at h
      simp [ih h]

theorem events_distinct {K : Type} [DecidableEq K] (m : List (K × Waiter)) (k1 k2 : K)
    (w1 w2 : Waiter) (hnd : (m.map (fun p => p.2.event)).Nodup)
    (h1 : dget? m k1 = some w1) (h2 : dget? m k2 = some w2) (hk : k1 ≠ k2) :
    w1.event ≠ w2.event := by
  induction m with
  | nil => simp [dget?] at h1
  | cons p rest ih =>
    obtain ⟨k0, w0⟩ := p
    simp only [List.map_cons, List.nodup_cons] at hnd
    by_cases e1 : k0 = k1
    · subst e1
      rw [dget?_cons_self] at h1
      rw [dget?_cons_ne _ _ _ _ hk] at h2
      have hw : w0 = w1 := Option.some.inj h1
      subst hw
      exact fun he => hnd.1 (he ▸ event_mem_of_dget? rest k2 w2 h2)
    · rw [dget?_cons_ne _ _ _ _ e1] at h1
      by_cases e2 : k0 = k2
      · subst e2
        rw [dget?_cons_self] at h2
        have hw : w0 = w2 := Option.some.inj h2
        subst hw
        exact fun he => hnd.1 (he ▸ event_mem_of_dget? rest k1 w1 h1)
      · rw [dget?_cons_ne _ _ _ _ e2] at h2
        exact ih hnd.2 h1 h2

theorem dget?_append {K V : Type} [DecidableEq K] (l1 l2 : List (K × V)) (k : K) :
    dget? (l1 ++ l2) k =
      (match dget? l1 k with
        | some v => some v
        | none => dget? l2 k) := by
  induction l1 with
  | nil => simp [dget?]
  | cons p rest ih =>
    obtain ⟨k0, v0⟩ := p
    by_cases h0 : k0 = k
    · simp [dget?, h0]
    · simp [dget?, h0, ih]

theorem mem_evsOf_dset (m : List (List Nat × Waiter)) (k : List Nat) (w' : Waiter)
    (e : Nat) (h : e ∈ evsOf (dset m k w')) : e = w'.event ∨ e ∈ evsOf m := by
  induction m with
  | nil => simpa [dset, evsOf] using h
  | cons p rest ih =>
    obtain ⟨k0, w0⟩ := p
    by_cases h0 : k0 = k
    · subst h0
      rw [dset_cons_self] at h
      simp only [evsOf, List.map_cons, List.mem_cons] at h ⊢
      tauto
    · rw [dset_cons_ne _ _ _ _ _ h0] at h
      simp only [evsOf, List.map_cons, List.mem_cons] at h ⊢
      rcases h with h | h
      · tauto
      · rcases ih (by simpa [evsOf] using h) with h' | h' <;> tauto

theorem nodup_evsOf_dset (m : List (List Nat × Waiter)) (k : List Nat) (w' : Waiter)
    (hnd : (evsOf m).Nodup) (hnew : w'.event ∉ evsOf m) : (evsOf (dset m k w')).Nodup := by
  induction m with
  | nil => simp [dset, evsOf]
  | cons p rest ih =>
    obtain ⟨k0, w0⟩ := p
    simp only [evsOf, List.map_cons, List.nodup_cons, List.mem_cons] at hnd hnew
    push_neg at hnew
    by_cases h0 : k0 = k
    · subst h0
      rw [dset_cons_self]
      simp only [evsOf, List.map_cons, List.nodup_cons]
      exact ⟨by simpa [evsOf] using hnew.2, hnd.2⟩
    · rw [dset_cons_ne _ _ _ _ _ h0]
      simp only [evsOf, List.map_cons, List.nodup_cons]
      refine ⟨?_, by simpa [evsOf] using ih hnd.2 (by simpa [evsOf] using hnew.2)⟩
      intro hmem
      rcases mem_evsOf_dset rest k w' _ (by simpa [evsOf] using hmem) with h' | h'
      · exact hnew.1 h'.symm
      · exact hnd.1 (by simpa [evsOf] using h')

theorem evsOf_derase_sublist (m : List (List Nat × Waiter)) (k : List Nat) :
    (evsOf (derase m k)).Sublist (evsOf m) := (derase_sublist m k).map _

theorem evsOf_dset_same (m : List (List Nat × Waiter)) (k : List Nat) (w : Waiter)
    (x : JValue) (h : dget? m k = some w) : evsOf (dset m k ⟨w.event, x⟩) = evsOf m :=
  map_event_dset_same m k w x h

theorem WF_initState : WF initState := by
  constructor <;> simp [initState, evIds, evsOf, keysOf]

theorem WF_update_rss_data (s : BState) (t : Nat) (d : JValue) (h : WF s) :
    WF (update_rss_data s t d) := by
  obtain ⟨h1, h2, h3, h4, h5, h6, h7⟩ := h
  exact ⟨h1, h2, h3, h4, h5, h6, h7⟩

theorem not_mem_keys_of_dget?_none {K V : Type} [DecidableEq K] (m : List (K × V)) (k : K)
    (h : dget? m k = none) : k ∉ keysOf m := by
  induction m with
  | nil => simp [keysOf]
  | cons p rest ih =>
    obtain ⟨k0, v0⟩ := p
    by_cases h0 : k0 = k
    · subst h0; rw [dget?_cons_self] at h; exact absurd h (by simp)
    · rw [dget?_cons_ne _ _ _ _ h0] at h
      simp only [keysOf, List.map_cons, List.mem_cons]
      push_neg
      exact ⟨fun hh => h0 hh.symm, by simpa [keysOf] using ih h⟩

theorem nodup_keysOf_dset {K V : Type} [DecidableEq K] (m : List (K × V)) (k : K) (v : V)
    (h : (keysOf m).Nodup) : (keysOf (dset m k v)).Nodup := by
  cases hh : dget? m k with
  | some w =>
    rw [keysOf_dset_of_mem m k v (by simp [hh])]
    exact h
  | none =>
    rw [keysOf_dset_of_not_mem m k v hh]
    have hk := not_mem_keys_of_dget?_none m k hh
    rw [List.nodup_append]
    refine ⟨h, by simp, ?_⟩
    intro a ha hb
    simp only [List.mem_singleton] at hb
    subst hb
    exact hk ha

theorem mem_dset {K V : Type} [DecidableEq K] (m : List (K × V)) (k : K) (v : V) :
    ∀ p ∈ dset m k v, p = (k, v) ∨ p ∈ m := by
  induction m with
  | nil => simp [dset]
  | cons q rest ih =>
    obtain ⟨k0, v0⟩ := q
    by_cases h0 : k0 = k
    · subst h0
      rw [dset_cons_self]
      intro p hp
      rcases List.mem_cons.mp hp with h | h
      · exact Or.inl h
      · exact Or.inr (List.mem_cons_of_mem _ h)
    · rw [dset_cons_ne _ _ _ _ _ h0]
      intro p hp
      rcases List.mem_cons.mp hp with h | h
      · exact Or.inr (h ▸ List.mem_cons_self _ _)
      · rcases ih p h with h' | h'
        · exact Or.inl h'
        · exact Or.inr (List.mem_cons_of_mem _ h')

theorem mem_evIds_mark (s : BState) (e : Nat) (h : e ∈ evsOf s.mark_read_results) :
    e ∈ evIds s := by
  simp only [evIds]
  exact List.mem_append_left _ h

theorem mem_evIds_item (s : BState) (e : Nat) (h : e ∈ evsOf s.single_item_results) :
    e ∈ evIds s := by
  simp only [evIds]
  exact List.mem_append_right _ (List.mem_append_left _ h)

theorem mem_evIds_folder (s : BState) (e : Nat) (h : e ∈ evsOf s.folder_results) :
    e ∈ evIds s := by
  simp only [evIds]
  exact List.mem_append_right _ (List.mem_append_right _ h)

theorem WF_register_mark (s : BState) (id : List Nat) (h : WF s) :
    WF (register_mark_read_request s id).2 := by
  have hbound := h.evBound
  have hdom := h.domBound
  have hnd := h.evNodup
  simp only [evIds, List.nodup_append] at hnd
  obtain ⟨hA, hBC, hdisj⟩ := hnd
  have hnewA : s.next_event ∉ evsOf s.mark_read_results := fun hm =>
    absurd (hbound _ (mem_evIds_mark s _ hm)) (by omega)
  constructor
  · exact nodup_keysOf_dset _ _ _ h.markNodup
  · exact h.itemNodup
  · exact h.folderNodup
  · simp only [register_mark_read_request, evIds, List.nodup_append]
    refine ⟨nodup_evsOf_dset _ _ _ hA hnewA, hBC, ?_⟩
    intro a ha hmem
    rcases mem_evsOf_dset _ _ _ _ ha with h' | h'
    · rw [Waiter.event_mk] at h'
      subst h'
      rcases List.mem_append.mp hmem with h2 | h2
      · exact absurd (hbound _ (mem_evIds_item s _ h2)) (by omega)
      · exact absurd (hbound _ (mem_evIds_folder s _ h2)) (by omega)
    · exact hdisj h' hmem
  · intro e he
    simp only [register_mark_read_request, evIds] at he
    rcases List.mem_append.mp he with h' | h'
    · rcases mem_evsOf_dset _ _ _ _ h' with h'' | h''
      · rw [Waiter.event_mk] at h''
        simp only [register_mark_read_request]
        omega
      · have := hbound e (mem_evIds_mark s _ h'')
        simp only [register_mark_read_request]
        omega
    · have := hbound e (by simp only [evIds]; exact List.mem_append_right _ h')
      simp only [register_mark_read_request]
      omega
  · simp only [register_mark_read_request, List.map_append, List.nodup_append]
    refine ⟨h.domNodup, by simp, ?_⟩
    intro a ha hb
    simp only [List.map_cons, List.map_nil, List.mem_singleton] at hb
    subst hb
    obtain ⟨p, hp, hpa⟩ := List.mem_map.mp ha
    exact absurd (hpa ▸ hdom p hp) (by omega)
  · intro p hp
    simp only [register_mark_read_request] at hp ⊢
    rcases List.mem_append.mp hp with h' | h'
    · exact Nat.lt_succ_of_lt (hdom p h')
    · simp only [List.mem_singleton] at h'
      subst h'
      omega

theorem WF_register_item (s : BState) (id : List Nat) (h : WF s) :
    WF (register_single_item_request s id).2 := by
  have hbound := h.evBound
  have hdom := h.domBound
  have hnd := h.evNodup
  simp only [evIds, List.nodup_append] at hnd
  obtain ⟨hA, hBC, hdisj⟩ := hnd
  obtain ⟨hB, hC, hdisjBC⟩ := hBC
  have hnewB : s.next_event ∉ evsOf s.single_item_results := fun hm =>
    absurd (hbound _ (mem_evIds_item s _ hm)) (by omega)
  constructor
  · exact h.markNodup
  · exact nodup_keysOf_dset _ _ _ h.itemNodup
  · exact h.folderNodup
  · simp only [register_single_item_request, evIds, List.nodup_append]
    refine ⟨hA, ⟨nodup_evsOf_dset _ _ _ hB hnewB, hC, ?_⟩, ?_⟩
    · intro a ha hmem
      rcases mem_evsOf_dset _ _ _ _ ha with h' | h'
      · rw [Waiter.event_mk] at h'
        subst h'
        exact absurd (hbound _ (mem_evIds_folder s _ hmem)) (by omega)
      · exact hdisjBC h' hmem
    · intro a ha hmem
      rcases List.mem_append.mp hmem with h' | h'
      · rcases mem_evsOf_dset _ _ _ _ h' with h'' | h''
        · rw [Waiter.event_mk] at h''
          subst h''
          exact absurd (hbound _ (mem_evIds_mark s _ ha)) (by omega)
        · exact hdisj ha (List.mem_append_left _ h'')
      · exact hdisj ha (List.mem_append_right _ h')
  · intro e he
    simp only [register_single_item_request, evIds] at he
    rcases List.mem_append.mp he with h' | h'
    · have := hbound e (mem_evIds_mark s _ h')
      simp only [register_single_item_request]
      omega
    · rcases List.mem_append.mp h' with h'' | h''
      · rcases mem_evsOf_dset _ _ _ _ h'' with h3 | h3
        · rw [Waiter.event_mk] at h3
          simp only [register_single_item_request]
          omega
        · have := hbound e (mem_evIds_item s _ h3)
          simp only [register_single_item_request]
          omega
      · have := hbound e (mem_evIds_folder s _ h'')
        simp only [register_single_item_request]
        omega
  · simp only [register_single_item_request, List.map_append, List.nodup_append]
    refine ⟨h.domNodup, by simp, ?_⟩
    intro a ha hb
    simp only [List.map_cons, List.map_nil, List.mem_singleton] at hb
    subst hb
    obtain ⟨p, hp, hpa⟩ := List.mem_map.mp ha
    exact absurd (hpa ▸ hdom p hp) (by omega)
  · intro p hp
    simp only [register_single_item_request] at hp ⊢
    rcases List.mem_append.mp hp with h' | h'
    · exact Nat.lt_succ_of_lt (hdom p h')
    · simp only [List.mem_singleton] at h'
      subst h'
      omega

theorem WF_register_folder (s : BState) (id : List Nat) (h : WF s) :
    WF (register_folder_request s id).2 := by
  have hbound := h.evBound
  have hdom := h.domBound
  have hnd := h.evNodup
  simp only [evIds, List.nodup_append] at hnd
  obtain ⟨hA, hBC, hdisj⟩ := hnd
  obtain ⟨hB, hC, hdisjBC⟩ := hBC
  have hnewC : s.next_event ∉ evsOf s.folder_results := fun hm =>
    absurd (hbound _ (mem_evIds_folder s _ hm)) (by omega)
  constructor
  · exact h.markNodup
  · exact h.itemNodup
  · exact nodup_keysOf_dset _ _ _ h.folderNodup
  · simp only [register_folder_request, evIds, List.nodup_append]
    refine ⟨hA, ⟨hB, nodup_evsOf_dset _ _ _ hC hnewC, ?_⟩, ?_⟩
    · intro a ha hmem
      rcases mem_evsOf_dset _ _ _ _ hmem with h' | h'
      · rw [Waiter.event_mk] at h'
        subst h'
        exact absurd (hbound _ (mem_evIds_item s _ ha)) (by omega)
      · exact hdisjBC ha h'
    · intro a ha hmem
      rcases List.mem_append.mp hmem with h' | h'
      · exact hdisj ha (List.mem_append_left _ h')
      · rcases mem_evsOf_dset _ _ _ _ h' with h'' | h''
        · rw [Waiter.event_mk] at h''
          subst h''
          exact absurd (hbound _ (mem_evIds_mark s _ ha)) (by omega)
        · exact hdisj ha (List.mem_append_right _ h'')
  · intro e he
    simp only [register_folder_request, evIds] at he
    rcases List.mem_append.mp he with h' | h'
    · have := hbound e (mem_evIds_mark s _ h')
      simp only [register_folder_request]
      omega
    · rcases List.mem_append.mp h' with h'' | h''
      · have := hbound e (mem_evIds_item s _ h'')
        simp only [register_folder_request]
        omega
      · rcases mem_evsOf_dset _ _ _ _ h'' with h3 | h3
        · rw [Waiter.event_mk] at h3
          simp only [register_folder_request]
          omega
        · have := hbound e (mem_evIds_folder s _ h3)
          simp only [register_folder_request]
          omega
  · simp only [register_folder_request, List.map_append, List.nodup_append]
    refine ⟨h.domNodup, by simp, ?_⟩
    intro a ha hb
    simp only [List.map_cons, List.map_nil, List.mem_singleton] at hb
    subst hb
    obtain ⟨p, hp, hpa⟩ := List.mem_map.mp ha
    exact absurd (hpa ▸ hdom p hp) (by omega)
  · intro p hp
    simp only [register_folder_request] at hp ⊢
    rcases List.mem_append.mp hp with h' | h'
    · exact Nat.lt_succ_of_lt (hdom p h')
    · simp only [List.mem_singleton] at h'
      subst h'
      omega

theorem WF_complete_mark (s : BState) (id : List Nat) (r : JValue) (h : WF s) :
    WF (complete_mark_read_request s id r) := by
  cases hh : dget? s.mark_read_results id with
  | none => simpa [complete_mark_read_request, hh] using h
  | some w =>
    have hev : w.event ∈ evIds s :=
      mem_evIds_mark s _ (by simpa [evsOf] using event_mem_of_dget? _ _ _ hh)
    have hevlt : w.event < s.next_event := h.evBound _ hev
    have hs : complete_mark_read_request s id r =
        { s with
          mark_read_results := dset s.mark_read_results id ⟨w.event, r⟩
          events := dset s.events w.event true } := by
      simp [complete_mark_read_request, hh]
    rw [hs]
    constructor
    · rw [keysOf_dset_of_mem _ _ _ (by simp [hh])]
      exact h.markNodup
    · exact h.itemNodup
    · exact h.folderNodup
    · simp only [evIds]
      rw [evsOf_dset_same _ _ _ _ hh]
      simpa [evIds] using h.evNodup
    · intro e he
      simp only [evIds] at he
      rw [evsOf_dset_same _ _ _ _ hh] at he
      exact h.evBound e (by simpa [evIds] using he)
    · simpa [keysOf] using
        nodup_keysOf_dset s.events w.event true (by simpa [keysOf] using h.domNodup)
    · intro p hp
      rcases mem_dset _ _ _ p hp with h' | h'
      · subst h'
        exact hevlt
      · exact h.domBound p h'

theorem WF_complete_item (s : BState) (id : List Nat) (r : JValue) (h : WF s) :
    WF (complete_single_item_request s id r) := by
  cases hh : dget? s.single_item_results id with
  | none => simpa [complete_single_item_request, hh] using h
  | some w =>
    have hev : w.event ∈ evIds s :=
      mem_evIds_item s _ (by simpa [evsOf] using event_mem_of_dget? _ _ _ hh)
    have hevlt : w.event < s.next_event := h.evBound _ hev
    have hs : complete_single_item_request s id r =
        { s with
          single_item_results := dset s.single_item_results id ⟨w.event, r⟩
          events := dset s.events w.event true } := by
      simp [complete_single_item_request, hh]
    rw [hs]
    constructor
    · exact h.markNodup
    · rw [keysOf_dset_of_mem _ _ _ (by simp [hh])]
      exact h.itemNodup
    · exact h.folderNodup
    · simp only [evIds]
      rw [evsOf_dset_same _ _ _ _ hh]
      simpa [evIds] using h.evNodup
    · intro e he
      simp only [evIds] at he
      rw [evsOf_dset_same _ _ _ _ hh] at he
      exact h.evBound e (by simpa [evIds] using he)
    · simpa [keysOf] using
        nodup_keysOf_dset s.events w.event true (by simpa [keysOf] using h.domNodup)
    · intro p hp
      rcases mem_dset _ _ _ p hp with h' | h'
      · subst h'
        exact hevlt
      · exact h.domBound p h'

theorem WF_complete_folder (s : BState) (id : List Nat) (r : JValue) (h : WF s) :
    WF (complete_folder_request s id r) := by
  cases hh : dget? s.folder_results id with
  | none => simpa [complete_folder_request, hh] using h
  | some w =>
    have hev : w.event ∈ evIds s :=
      mem_evIds_folder s _ (by simpa [evsOf] using event_mem_of_dget? _ _ _ hh)
    have hevlt : w.event < s.next_event := h.evBound _ hev
    have hs : complete_folder_request s id r =
        { s with
          folder_results := dset s.folder_results id ⟨w.event, r⟩
          events := dset s.events w.event true } := by
      simp [complete_folder_request, hh]
    rw [hs]
    constructor
    · exact h.markNodup
    · exact h.itemNodup
    · rw [keysOf_dset_of_mem _ _ _ (by simp [hh])]
      exact h.folderNodup
    · simp only [evIds]
      rw [evsOf_dset_same _ _ _ _ hh]
      simpa [evIds] using h.evNodup
    · intro e he
      simp only [evIds] at he
      rw [evsOf_dset_same _ _ _ _ hh] at he
      exact h.evBound e (by simpa [evIds] using he)
    · simpa [keysOf] using
        nodup_keysOf_dset s.events w.event true (by simpa [keysOf] using h.domNodup)
    · intro p hp
      rcases mem_dset _ _ _ p hp with h' | h'
      · subst h'
        exact hevlt
      · exact h.domBound p h'

theorem WF_derase_mark (s : BState) (id : List Nat) (h : WF s) :
    WF { s with mark_read_results := derase s.mark_read_results id } := by
  constructor
  · exact h.markNodup.sublist (keysOf_derase_sublist _ _)
  · exact h.itemNodup
  · exact h.folderNodup
  · exact h.evNodup.sublist ((evsOf_derase_sublist _ id).append_right _)
  · intro e he
    exact h.evBound e (((evsOf_derase_sublist s.mark_read_results id).append_right _).subset he)
  · exact h.domNodup
  · exact h.domBound

theorem WF_derase_item (s : BState) (id : List Nat) (h : WF s) :
    WF { s with single_item_results := derase s.single_item_results id } := by
  have hsub : (evIds { s with single_item_results := derase s.single_item_results id }).Sublist (evIds s) := by
    simp only [evIds]
    exact List.Sublist.append_left
      ((evsOf_derase_sublist s.single_item_results id).append_right _) _
  constructor
  · exact h.markNodup
  · exact h.itemNodup.sublist (keysOf_derase_sublist _ _)
  · exact h.folderNodup
  · exact h.evNodup.sublist hsub
  · intro e he
    exact h.evBound e (hsub.subset he)
  · exact h.domNodup
  · exact h.domBound

theorem WF_derase_folder (s : BState) (id : List Nat) (h : WF s) :
    WF { s with folder_results := derase s.folder_results id } := by
  have hsub : (evIds { s with folder_results := derase s.folder_results id }).Sublist (evIds s) := by
    simp only [evIds]
    exact List.Sublist.append_left
      ((evsOf_derase_sublist s.folder_results id).append_left _) _
  constructor
  · exact h.markNodup
  · exact h.itemNodup
  · exact h.folderNodup.sublist (keysOf_derase_sublist _ _)
  · exact h.evNodup.sublist hsub
  · intro e he
    exact h.evBound e (hsub.subset he)
  · exact h.domNodup
  · exact h.domBound

theorem WF_routerStep (t : Nat) (s : BState) (m : JValue) (h : WF s) :
    WF (routerStep t s m).1 := by
  cases m with
  | obj fields =>
    simp only [routerStep]
    cases jget fields (cp "type") with
    | str ty =>
      dsimp only
      by_cases h1 : ty = cp "rssData"
      · rw [if_pos h1]
        exact WF_update_rss_data _ _ _ h
      · rw [if_neg h1]
        by_cases h2 : ty = cp "singleItemData"
        · rw [if_pos h2]
          cases jget fields (cp "itemId") with
          | str iid => exact WF_complete_item _ _ _ h
          | _ => exact h
        · rw [if_neg h2]
          by_cases h3 : ty = cp "folderData"
          · rw [if_pos h3]
            cases jget fields (cp "folderPath") with
            | str fp => exact WF_complete_folder _ _ _ h
            | _ => exact h
          · rw [if_neg h3]
            by_cases h4 : ty = cp "markReadResult"
            · rw [if_pos h4]
              cases jget fields (cp "itemId") with
              | str iid => exact WF_complete_mark _ _ _ h
              | _ => exact h
            · rw [if_neg h4]
              exact h
    | _ => exact h
  | str sv =>
    simp only [routerStep]
    by_cases h1 : sv = cp "ping"
    · rw [if_pos h1]
      exact h
    · rw [if_neg h1]
      exact h
  | _ => exact h

theorem WF_routerRun (t : Nat) (msgs : List JValue) :
    ∀ s : BState, WF s → WF (routerRun t s msgs).1 := by
  induction msgs with
  | nil => intro s h; exact h
  | cons m ms ih =>
    intro s h
    simp only [routerRun]
    exact ih _ (WF_routerStep t s m h)

theorem eventIsSet_dset_self (evs : List (Nat × Bool)) (e : Nat) :
    eventIsSet (dset evs e true) e = true := by
  simp [eventIsSet, dget?_dset_self]

theorem eventIsSet_dset_ne (evs : List (Nat × Bool)) (e e' : Nat) (b : Bool) (h : e' ≠ e) :
    eventIsSet (dset evs e b) e' = eventIsSet evs e' := by
  simp [eventIsSet, dget?_dset_ne _ _ _ _ h]

theorem eventIsSet_append_fresh (evs : List (Nat × Bool)) (n e : Nat) (b : Bool)
    (h : e ≠ n) : eventIsSet (evs ++ [(n, b)]) e = eventIsSet evs e := by
  simp only [eventIsSet, dget?_append]
  have h' : ¬n = e := fun hh => h hh.symm
  cases dget? evs e with
  | some x => simp
  | none => simp [dget?, h']

/-- Claim C5: for every keyed kind (mark-read, single-item, folder),
completing with no waiter registered for the id leaves the state — in
particular the correlation table and every event flag — entirely unchanged (a
late or unsolicited reply is silently dropped), and completing with a waiter
registered stores the result in that waiter's slot and sets exactly that
waiter's completion event, leaving all other entries, events, and tables
untouched. -/
theorem C5_completeKeyed :
    (∀ s id r, dget? s.mark_read_results id = none →
      complete_mark_read_request s id r = s) ∧
    (∀ s id r w, dget? s.mark_read_results id = some w →
      dget? (complete_mark_read_request s id r).mark_read_results id =
          some ⟨w.event, r⟩ ∧
        eventIsSet (complete_mark_read_request s id r).events w.event = true ∧
        (∀ k, k ≠ id →
          dget? (complete_mark_read_request s id r).mark_read_results k =
            dget? s.mark_read_results k) ∧
        (∀ e, e ≠ w.event →
          eventIsSet (complete_mark_read_request s id r).events e =
            eventIsSet s.events e) ∧
        (complete_mark_read_request s id r).single_item_results =
            s.single_item_results ∧
        (complete_mark_read_request s id r).folder_results = s.folder_results) ∧
    (∀ s id r, dget? s.single_item_results id = none →
      complete_single_item_request s id r = s) ∧
    (∀ s id r w, dget? s.single_item_results id = some w →
      dget? (complete_single_item_request s id r).single_item_results id =
          some ⟨w.event, r⟩ ∧
        eventIsSet (complete_single_item_request s id r).events w.event = true ∧
        (∀ k, k ≠ id →
          dget? (complete_single_item_request s id r).single_item_results k =
            dget? s.single_item_results k) ∧
        (∀ e, e ≠ w.event →
          eventIsSet (complete_single_item_request s id r).events e =
            eventIsSet s.events e) ∧
        (complete_single_item_request s id r).mark_read_results =
            s.mark_read_results ∧
        (complete_single_item_request s id r).folder_results = s.folder_results) ∧
    (∀ s id r, dget? s.folder_results id = none →
      complete_folder_request s id r = s) ∧
    (∀ s id r w, dget? s.folder_results id = some w →
      dget? (complete_folder_request s id r).folder_results id = some ⟨w.event, r⟩ ∧
        eventIsSet (complete_folder_request s id r).events w.event = true ∧
        (∀ k, k ≠ id →
          dget? (complete_folder_request s id r).folder_results k =
            dget? s.folder_results k) ∧
        (∀ e, e ≠ w.event →
          eventIsSet (complete_folder_request s id r).events e =
            eventIsSet s.events e) ∧
        (complete_folder_request s id r).mark_read_results = s.mark_read_results ∧
        (complete_folder_request s id r).single_item_results =
          s.single_item_results) := by
  refine ⟨?_, ?_, ?_, ?_, ?_, ?_⟩
  · intro s id r h
    simp [complete_mark_read_request, h]
  · intro s id r w h
    simp only [complete_mark_read_request, h]
    exact ⟨dget?_dset_self _ _ _, eventIsSet_dset_self _ _,
      fun k hk => dget?_dset_ne _ _ _ _ hk,
      fun e he => eventIsSet_dset_ne _ _ _ _ he, by trivial, by trivial⟩
  · intro s id r h
    simp [complete_single_item_request, h]
  · intro s id r w h
    simp only [complete_single_item_request, h]
    exact ⟨dget?_dset_self _ _ _, eventIsSet_dset_self _ _,
      fun k hk => dget?_dset_ne _ _ _ _ hk,
      fun e he => eventIsSet_dset_ne _ _ _ _ he, by trivial, by trivial⟩
  · intro s id r h
    simp [complete_folder_request, h]
  · intro s id r w h
    simp only [complete_folder_request, h]
    exact ⟨dget?_dset_self _ _ _, eventIsSet_dset_self _ _,
      fun k hk => dget?_dset_ne _ _ _ _ hk,
      fun e he => eventIsSet_dset_ne _ _ _ _ he, by trivial, by trivial⟩

/-- Witness for C5 at a concrete state: completing with an empty table is a
no-op, and completing a registered waiter for item "42" stores the result and
fires its event. -/
theorem C5_completeKeyed_witness :
    complete_mark_read_request initState (cp "42") (JValue.bool true) = initState ∧
    dget?
        (complete_mark_read_request
          (register_mark_read_request initState (cp "42")).2 (cp "42")
          (JValue.bool true)).mark_read_results (cp "42") =
      some ⟨0, JValue.bool true⟩ := by
  constructor
  · exact C5_completeKeyed.1 initState (cp "42") (JValue.bool true) (by rfl)
  · exact (C5_completeKeyed.2.1 (register_mark_read_request initState (cp "42")).2
      (cp "42") (JValue.bool true) ⟨0, JValue.bool false⟩ (by rfl)).1

/-- Claim C6: retrieval of a keyed result is a consuming read — when an entry
is stored for the id, the take operation returns the stored value and removes
the entry, so immediately afterwards the table has no entry for the id and a
second take returns the absent default (`False` for mark-read, `None` for
single-item, `[]` for folder) leaving the state unchanged; a take with no
entry returns the default and changes nothing. -/
theorem C6_takeKeyed_consuming :
    (∀ s id w, (keysOf s.mark_read_results).Nodup →
      dget? s.mark_read_results id = some w →
      (get_mark_read_result s id).1 = w.value ∧
        dget? (get_mark_read_result s id).2.mark_read_results id = none ∧
        get_mark_read_result (get_mark_read_result s id).2 id =
          (JValue.bool false, (get_mark_read_result s id).2)) ∧
    (∀ s id, dget? s.mark_read_results id = none →
      get_mark_read_result s id = (JValue.bool false, s)) ∧
    (∀ s id w, (keysOf s.single_item_results).Nodup →
      dget? s.single_item_results id = some w →
      (get_single_item_result s id).1 = w.value ∧
        dget? (get_single_item_result s id).2.single_item_results id = none ∧
        get_single_item_result (get_single_item_result s id).2 id =
          (JValue.null, (get_single_item_result s id).2)) ∧
    (∀ s id, dget? s.single_item_results id = none →
      get_single_item_result s id = (JValue.null, s)) ∧
    (∀ s id w, (keysOf s.folder_results).Nodup →
      dget? s.folder_results id = some w →
      (get_folder_result s id).1 = w.value ∧
        dget? (get_folder_result s id).2.folder_results id = none ∧
        get_folder_result (get_folder_result s id).2 id =
          (JValue.arr [], (get_folder_result s id).2)) ∧
    (∀ s id, dget? s.folder_results id = none →
      get_folder_result s id = (JValue.arr [], s)) := by
  refine ⟨?_, ?_, ?_, ?_, ?_, ?_⟩
  · intro s id w hnd h
    have hgone : dget? (derase s.mark_read_results id) id = none :=
      dget?_derase_self _ _ hnd
    simp only [get_mark_read_result, h]
    exact ⟨by trivial, hgone, by simp only [get_mark_read_result, hgone]⟩
  · intro s id h
    simp [get_mark_read_result, h]
  · intro s id w hnd h
    have hgone : dget? (derase s.single_item_results id) id = none :=
      dget?_derase_self _ _ hnd
    simp only [get_single_item_result, h]
    exact ⟨by trivial, hgone, by simp only [get_single_item_result, hgone]⟩
  · intro s id h
    simp [get_single_item_result, h]
  · intro s id w hnd h
    have hgone : dget? (derase s.folder_results id) id = none :=
      dget?_derase_self _ _ hnd
    simp only [get_folder_result, h]
    exact ⟨by trivial, hgone, by simp only [get_folder_result, hgone]⟩
  · intro s id h
    simp [get_folder_result, h]

/-- Witness for C6 at a concrete state: taking the stored mark-read result for
item "42" returns it, leaves no entry, and a second take yields the default. -/
theorem C6_takeKeyed_consuming_witness :
    (get_mark_read_result
        (complete_mark_read_request (register_mark_read_request initState (cp "42")).2
          (cp "42") (JValue.bool true)) (cp "42")).1 = JValue.bool true ∧
    dget?
        (get_mark_read_result
          (complete_mark_read_request (register_mark_read_request initState (cp "42")).2
            (cp "42") (JValue.bool true)) (cp "42")).2.mark_read_results (cp "42") =
      none := by
  have h := C6_takeKeyed_consuming.1
    (complete_mark_read_request (register_mark_read_request initState (cp "42")).2
      (cp "42") (JValue.bool true)) (cp "42") ⟨0, JValue.bool true⟩ (by decide) (by rfl)
  exact ⟨h.1, h.2.1⟩

theorem not_mem_dom_of_lt (evs : List (Nat × Bool)) (n : Nat)
    (h : ∀ p ∈ evs, p.1 < n) : dget? evs n = none := by
  apply dget?_none_of_not_mem_keys
  intro hm
  obtain ⟨p, hp, hp1⟩ := List.mem_map.mp hm
  exact absurd (hp1 ▸ h p hp) (by omega)

/-- Claim C7: the Correlation Store holds at most one waiter per distinct
keyed correlation key at every instant — the key lists of the three tables are
duplicate-free in the initial state and stay so under every store operation
and every inbound-router step (the `WF` invariant) — and `registerKeyed`
inserts or overwrites the entry with a fresh, uncompleted waiter; an overwrite
leaves the earlier waiter's event distinct from the new one and permanently
un-fired: even after a completion for the same id arrives (which fires only
the new waiter's event), the earlier event's flag is exactly what it was
before, so a caller still blocked on it times out instead of receiving the
newer registration's result. -/
theorem C7_single_waiter_and_overwrite :
    WF initState ∧
    (∀ s id, WF s → WF (register_mark_read_request s id).2) ∧
    (∀ s id, WF s → WF (register_single_item_request s id).2) ∧
    (∀ s id, WF s → WF (register_folder_request s id).2) ∧
    (∀ s id r, WF s → WF (complete_mark_read_request s id r)) ∧
    (∀ s id r, WF s → WF (complete_single_item_request s id r)) ∧
    (∀ s id r, WF s → WF (complete_folder_request s id r)) ∧
    (∀ s id, WF s → WF (get_mark_read_result s id).2) ∧
    (∀ s id, WF s → WF (get_single_item_result s id).2) ∧
    (∀ s id, WF s → WF (get_folder_result s id).2) ∧
    (∀ s id, WF s → WF (cleanup_mark_read_request s id)) ∧
    (∀ s id, WF s → WF (cleanup_single_item_request s id)) ∧
    (∀ s id, WF s → WF (cleanup_folder_request s id)) ∧
    (∀ t s m, WF s → WF (routerStep t s m).1) ∧
    (∀ s id, WF s →
      dget? (register_mark_read_request s id).2.mark_read_results id =
          some ⟨s.next_event, JValue.bool false⟩ ∧
        eventIsSet (register_mark_read_request s id).2.events s.next_event = false) ∧
    (∀ s id, WF s →
      dget? (register_single_item_request s id).2.single_item_results id =
          some ⟨s.next_event, JValue.null⟩ ∧
        eventIsSet (register_single_item_request s id).2.events s.next_event = false) ∧
    (∀ s id w, WF s → dget? s.mark_read_results id = some w →
      w.event ≠ (register_mark_read_request s id).1 ∧
        (∀ r, eventIsSet
            (complete_mark_read_request (register_mark_read_request s id).2 id r).events
            w.event =
          eventIsSet s.events w.event)) ∧
    (∀ s id w, WF s → dget? s.single_item_results id = some w →
      w.event ≠ (register_single_item_request s id).1 ∧
        (∀ r, eventIsSet
            (complete_single_item_request (register_single_item_request s id).2 id
              r).events w.event =
          eventIsSet s.events w.event)) := by
  refine ⟨WF_initState, WF_register_mark, WF_register_item, WF_register_folder,
    WF_complete_mark, WF_complete_item, WF_complete_folder, ?_, ?_, ?_,
    fun s id h => WF_derase_mark s id h, fun s id h => WF_derase_item s id h,
    fun s id h => WF_derase_folder s id h, WF_routerStep, ?_, ?_, ?_, ?_⟩
  · intro s id h
    cases hh : dget? s.mark_read_results id with
    | some w =>
      simp only [get_mark_read_result, hh]
      exact WF_derase_mark s id h
    | none =>
      simp only [get_mark_read_result, hh]
      exact h
  · intro s id h
    cases hh : dget? s.single_item_results id with
    | some w =>
      simp only [get_single_item_result, hh]
      exact WF_derase_item s id h
    | none =>
      simp only [get_single_item_result, hh]
      exact h
  · intro s id h
    cases hh : dget? s.folder_results id with
    | some w =>
      simp only [get_folder_result, hh]
      exact WF_derase_folder s id h
    | none =>
      simp only [get_folder_result, hh]
      exact h
  · intro s id h
    refine ⟨dget?_dset_self _ _ _, ?_⟩
    simp only [register_mark_read_request, eventIsSet, dget?_append,
      not_mem_dom_of_lt s.events s.next_event h.domBound]
    simp [dget?]
  · intro s id h
    refine ⟨dget?_dset_self _ _ _, ?_⟩
    simp only [register_single_item_request, eventIsSet, dget?_append,
      not_mem_dom_of_lt s.events s.next_event h.domBound]
    simp [dget?]
  · intro s id w h hw
    have hlt : w.event < s.next_event :=
      h.evBound _ (mem_evIds_mark s _ (by simpa [evsOf] using event_mem_of_dget? _ _ _ hw))
    have hne : w.event ≠ s.next_event := by omega
    refine ⟨hne, ?_⟩
    intro r
    have hfresh : dget? (register_mark_read_request s id).2.mark_read_results id =
        some ⟨s.next_event, JValue.bool false⟩ := dget?_dset_self _ _ _
    simp only [complete_mark_read_request, hfresh]
    rw [eventIsSet_dset_ne _ _ _ _ hne]
    exact eventIsSet_append_fresh s.events s.next_event w.event false hne
  · intro s id w h hw
    have hlt : w.event < s.next_event :=
      h.evBound _ (mem_evIds_item s _ (by simpa [evsOf] using event_mem_of_dget? _ _ _ hw))
    have hne : w.event ≠ s.next_event := by omega
    refine ⟨hne, ?_⟩
    intro r
    have hfresh : dget? (register_single_item_request s id).2.single_item_results id =
        some ⟨s.next_event, JValue.null⟩ := dget?_dset_self _ _ _
    simp only [complete_single_item_request, hfresh]
    rw [eventIsSet_dset_ne _ _ _ _ hne]
    exact eventIsSet_append_fresh s.events s.next_event w.event false hne

/-- Witness for C7 at a concrete state: the store after registering "42" is
well-formed, and a second registration for "42" abandons the first waiter —
its event id 0 differs from the new registration's id 1 and its flag is still
unset after the duplicate registration completes. -/
theorem C7_single_waiter_and_overwrite_witness :
    WF (register_mark_read_request initState (cp "42")).2 ∧
    (0 : Nat) ≠
        (register_mark_read_request (register_mark_read_request initState (cp "42")).2
          (cp "42")).1 ∧
      eventIsSet
          (complete_mark_read_request
            (register_mark_read_request
              (register_mark_read_request initState (cp "42")).2 (cp "42")).2 (cp "42")
            (JValue.bool true)).events 0 =
        eventIsSet (register_mark_read_request initState (cp "42")).2.events 0 := by
  have h1 := C7_single_waiter_and_overwrite.2.1 initState (cp "42") WF_initState
  have h2 := C7_single_waiter_and_overwrite.2.2.2.2.2.2.2.2.2.2.2.2.2.2.2.2.1
    (register_mark_read_request initState (cp "42")).2 (cp "42")
    ⟨0, JValue.bool false⟩ (by constructor <;> decide) (by rfl)
  exact ⟨h1, h2.1, h2.2 (JValue.bool true)⟩

theorem cross_distinct_mark_item (s : BState) (h : WF s) (id1 id2 : List Nat)
    (w1 w2 : Waiter) (h1 : dget? s.mark_read_results id1 = some w1)
    (h2 : dget? s.single_item_results id2 = some w2) : w1.event ≠ w2.event := by
  have hm : w1.event ∈ evsOf s.mark_read_results := by
    simpa [evsOf] using event_mem_of_dget? _ _ _ h1
  have hi : w2.event ∈ evsOf s.single_item_results := by
    simpa [evsOf] using event_mem_of_dget? _ _ _ h2
  have hnd := h.evNodup
  simp only [evIds, List.nodup_append] at hnd
  intro he
  exact hnd.2.2 hm (List.mem_append_left _ (he ▸ hi))

theorem cross_distinct_mark_folder (s : BState) (h : WF s) (id1 id2 : List Nat)
    (w1 w2 : Waiter) (h1 : dget? s.mark_read_results id1 = some w1)
    (h2 : dget? s.folder_results id2 = some w2) : w1.event ≠ w2.event := by
  have hm : w1.event ∈ evsOf s.mark_read_results := by
    simpa [evsOf] using event_mem_of_dget? _ _ _ h1
  have hf : w2.event ∈ evsOf s.folder_results := by
    simpa [evsOf] using event_mem_of_dget? _ _ _ h2
  have hnd := h.evNodup
  simp only [evIds, List.nodup_append] at hnd
  intro he
  exact hnd.2.2 hm (List.mem_append_right _ (he ▸ hf))

theorem cross_distinct_item_folder (s : BState) (h : WF s) (id1 id2 : List Nat)
    (w1 w2 : Waiter) (h1 : dget? s.single_item_results id1 = some w1)
    (h2 : dget? s.folder_results id2 = some w2) : w1.event ≠ w2.event := by
  have hi : w1.event ∈ evsOf s.single_item_results := by
    simpa [evsOf] using event_mem_of_dget? _ _ _ h1
  have hf : w2.event ∈ evsOf s.folder_results := by
    simpa [evsOf] using event_mem_of_dget? _ _ _ h2
  have hnd := h.evNodup
  simp only [evIds, List.nodup_append] at hnd
  intro he
  exact hnd.2.1.2.2 hi (he ▸ hf)

theorem within_distinct_mark (s : BState) (h : WF s) (id1 id2 : List Nat) (w1 w2 : Waiter)
    (h1 : dget? s.mark_read_results id1 = some w1)
    (h2 : dget? s.mark_read_results id2 = some w2) (hk : id1 ≠ id2) :
    w1.event ≠ w2.event := by
  have hnd := h.evNodup
  simp only [evIds, List.nodup_append] at hnd
  exact events_distinct _ _ _ _ _ (by simpa [evsOf] using hnd.1) h1 h2 hk

theorem within_distinct_item (s : BState) (h : WF s) (id1 id2 : List Nat) (w1 w2 : Waiter)
    (h1 : dget? s.single_item_results id1 = some w1)
    (h2 : dget? s.single_item_results id2 = some w2) (hk : id1 ≠ id2) :
    w1.event ≠ w2.event := by
  have hnd := h.evNodup
  simp only [evIds, List.nodup_append] at hnd
  exact events_distinct _ _ _ _ _ (by simpa [evsOf] using hnd.2.1.1) h1 h2 hk

theorem within_distinct_folder (s : BState) (h : WF s) (id1 id2 : List Nat)
    (w1 w2 : Waiter) (h1 : dget? s.folder_results id1 = some w1)
    (h2 : dget? s.folder_results id2 = some w2) (hk : id1 ≠ id2) :
    w1.event ≠ w2.event := by
  have hnd := h.evNodup
  simp only [evIds, List.nodup_append] at hnd
  exact events_distinct _ _ _ _ _ (by simpa [evsOf] using hnd.2.1.2.1) h1 h2 hk

theorem complete_item_mark_unchanged (s : BState) (id : List Nat) (r : JValue) :
    (complete_single_item_request s id r).mark_read_results = s.mark_read_results := by
  cases hh : dget? s.single_item_results id <;> simp [complete_single_item_request, hh]

theorem complete_folder_mark_unchanged (s : BState) (id : List Nat) (r : JValue) :
    (complete_folder_request s id r).mark_read_results = s.mark_read_results := by
  cases hh : dget? s.folder_results id <;> simp [complete_folder_request, hh]

theorem complete_mark_item_unchanged (s : BState) (id : List Nat) (r : JValue) :
    (complete_mark_read_request s id r).single_item_results = s.single_item_results := by
  cases hh : dget? s.mark_read_results id <;> simp [complete_mark_read_request, hh]

theorem complete_folder_item_unchanged (s : BState) (id : List Nat) (r : JValue) :
    (complete_folder_request s id r).single_item_results = s.single_item_results := by
  cases hh : dget? s.folder_results id <;> simp [complete_folder_request, hh]

theorem complete_mark_folder_unchanged (s : BState) (id : List Nat) (r : JValue) :
    (complete_mark_read_request s id r).folder_results = s.folder_results := by
  cases hh : dget? s.mark_read_results id <;> simp [complete_mark_read_request, hh]

theorem complete_item_folder_unchanged (s : BState) (id : List Nat) (r : JValue) :
    (complete_single_item_request s id r).folder_results = s.folder_results := by
  cases hh : dget? s.single_item_results id <;> simp [complete_single_item_request, hh]

theorem complete_mark_flag_unchanged (s : BState) (id : List Nat) (r : JValue) :
    (complete_mark_read_request s id r).data_update_event = s.data_update_event ∧
      (complete_mark_read_request s id r).unread_items = s.unread_items := by
  cases hh : dget? s.mark_read_results id <;> simp [complete_mark_read_request, hh]

theorem complete_item_flag_unchanged (s : BState) (id : List Nat) (r : JValue) :
    (complete_single_item_request s id r).data_update_event = s.data_update_event ∧
      (complete_single_item_request s id r).unread_items = s.unread_items := by
  cases hh : dget? s.single_item_results id <;> simp [complete_single_item_request, hh]

theorem complete_folder_flag_unchanged (s : BState) (id : List Nat) (r : JValue) :
    (complete_folder_request s id r).data_update_event = s.data_update_event ∧
      (complete_folder_request s id r).unread_items = s.unread_items := by
  cases hh : dget? s.folder_results id <;> simp [complete_folder_request, hh]

/-- A routed message that is not a mark-read completion for `id` leaves the
mark-read entry of `id` and the flag of its event untouched. -/
theorem routerStep_preserves_mark (t : Nat) (s : BState) (m : JValue) (id : List Nat)
    (w : Waiter) (hWF : WF s) (hw : dget? s.mark_read_results id = some w)
    (hnm : ¬isMarkReadResultFor id m) :
    dget? (routerStep t s m).1.mark_read_results id = some w ∧
      eventIsSet (routerStep t s m).1.events w.event = eventIsSet s.events w.event := by
  cases m with
  | obj fields =>
    simp only [routerStep]
    cases hty : jget fields (cp "type") with
    | str ty =>
      dsimp only
      by_cases h1 : ty = cp "rssData"
      · rw [if_pos h1]
        exact ⟨hw, rfl⟩
      · rw [if_neg h1]
        by_cases h2 : ty = cp "singleItemData"
        · rw [if_pos h2]
          cases hiid : jget fields (cp "itemId") with
          | str iid =>
            dsimp only
            refine ⟨by rw [complete_item_mark_unchanged]; exact hw, ?_⟩
            cases hh : dget? s.single_item_results iid with
            | none => simp [complete_single_item_request, hh]
            | some w2 =>
              simp only [complete_single_item_request, hh]
              exact eventIsSet_dset_ne _ _ _ _
                (cross_distinct_mark_item s hWF id iid w w2 hw hh)
          | _ => exact ⟨hw, rfl⟩
        · rw [if_neg h2]
          by_cases h3 : ty = cp "folderData"
          · rw [if_pos h3]
            cases hfp : jget fields (cp "folderPath") with
            | str fp =>
              dsimp only
              refine ⟨by rw [complete_folder_mark_unchanged]; exact hw, ?_⟩
              cases hh : dget? s.folder_results fp with
              | none => simp [complete_folder_request, hh]
              | some w2 =>
                simp only [complete_folder_request, hh]
                exact eventIsSet_dset_ne _ _ _ _
                  (cross_distinct_mark_folder s hWF id fp w w2 hw hh)
            | _ => exact ⟨hw, rfl⟩
          · rw [if_neg h3]
            by_cases h4 : ty = cp "markReadResult"
            · rw [if_pos h4]
              cases hiid : jget fields (cp "itemId") with
              | str iid =>
                dsimp only
                have hiid_ne : iid ≠ id := by
                  intro he
                  subst he
                  exact hnm ⟨fields, rfl, by rw [hty, h4], hiid⟩
                refine ⟨?_, ?_⟩
                · cases hh : dget? s.mark_read_results iid with
                  | none => simp only [complete_mark_read_request, hh]; exact hw
                  | some w2 =>
                    simp only [complete_mark_read_request, hh]
                    rw [dget?_dset_ne _ _ _ _ (Ne.symm hiid_ne)]
                    exact hw
                · cases hh : dget? s.mark_read_results iid with
                  | none => simp only [complete_mark_read_request, hh]
                  | some w2 =>
                    simp only [complete_mark_read_request, hh]
                    exact eventIsSet_dset_ne _ _ _ _
                      (within_distinct_mark s hWF id iid w w2 hw hh
                        (fun he => hiid_ne he.symm))
              | _ => exact ⟨hw, rfl⟩
            · rw [if_neg h4]
              exact ⟨hw, rfl⟩
    | _ => exact ⟨hw, rfl⟩
  | str sv =>
    simp only [routerStep]
    by_cases h1 : sv = cp "ping"
    · rw [if_pos h1]
      exact ⟨hw, rfl⟩
    · rw [if_neg h1]
      exact ⟨hw, rfl⟩
  | _ => exact ⟨hw, rfl⟩

/-- A routed message that is not a single-item completion for `id` leaves the
single-item entry of `id` and the flag of its event untouched. -/
theorem routerStep_preserves_item (t : Nat) (s : BState) (m : JValue) (id : List Nat)
    (w : Waiter) (hWF : WF s) (hw : dget? s.single_item_results id = some w)
    (hnm : ¬isSingleItemDataFor id m) :
    dget? (routerStep t s m).1.single_item_results id = some w ∧
      eventIsSet (routerStep t s m).1.events w.event = eventIsSet s.events w.event := by
  cases m with
  | obj fields =>
    simp only [routerStep]
    cases hty : jget fields (cp "type") with
    | str ty =>
      dsimp only
      by_cases h1 : ty = cp "rssData"
      · rw [if_pos h1]
        exact ⟨hw, rfl⟩
      · rw [if_neg h1]
        by_cases h2 : ty = cp "singleItemData"
        · rw [if_pos h2]
          cases hiid : jget fields (cp "itemId") with
          | str iid =>
            dsimp only
            have hiid_ne : iid ≠ id := by
              intro he
              subst he
              exact hnm ⟨fields, rfl, by rw [hty, h2], hiid⟩
            refine ⟨?_, ?_⟩
            · cases hh : dget? s.single_item_results iid with
              | none => simp only [complete_single_item_request, hh]; exact hw
              | some w2 =>
                simp only [complete_single_item_request, hh]
                rw [dget?_dset_ne _ _ _ _ (Ne.symm hiid_ne)]
                exact hw
            · cases hh : dget? s.single_item_results iid with
              | none => simp only [complete_single_item_request, hh]
              | some w2 =>
                simp only [complete_single_item_request, hh]
                exact eventIsSet_dset_ne _ _ _ _
                  (within_distinct_item s hWF id iid w w2 hw hh
                    (fun he => hiid_ne he.symm))
          | _ => exact ⟨hw, rfl⟩
        · rw [if_neg h2]
          by_cases h3 : ty = cp "folderData"
          · rw [if_pos h3]
            cases hfp : jget fields (cp "folderPath") with
            | str fp =>
              dsimp only
              refine ⟨by rw [complete_folder_item_unchanged]; exact hw, ?_⟩
              cases hh : dget? s.folder_results fp with
              | none => simp [complete_folder_request, hh]
              | some w2 =>
                simp only [complete_folder_request, hh]
                exact eventIsSet_dset_ne _ _ _ _
                  (cross_distinct_item_folder s hWF id fp w w2 hw hh)
            | _ => exact ⟨hw, rfl⟩
          · rw [if_neg h3]
            by_cases h4 : ty = cp "markReadResult"
            · rw [if_pos h4]
              cases hiid : jget fields (cp "itemId") with
              | str iid =>
                dsimp only
                refine ⟨by rw [complete_mark_item_unchanged]; exact hw, ?_⟩
                cases hh : dget? s.mark_read_results iid with
                | none => simp [complete_mark_read_request, hh]
                | some w2 =>
                  simp only [complete_mark_read_request, hh]
                  exact eventIsSet_dset_ne _ _ _ _
                    (Ne.symm (cross_distinct_mark_item s hWF iid id w2 w hh hw))
              | _ => exact ⟨hw, rfl⟩
            · rw [if_neg h4]
              exact ⟨hw, rfl⟩
    | _ => exact ⟨hw, rfl⟩
  | str sv =>
    simp only [routerStep]
    by_cases h1 : sv = cp "ping"
    · rw [if_pos h1]
      exact ⟨hw, rfl⟩
    · rw [if_neg h1]
      exact ⟨hw, rfl⟩
  | _ => exact ⟨hw, rfl⟩

/-- A routed message that is not a folder completion for `id` leaves the
folder entry of `id` and the flag of its event untouched. -/
theorem routerStep_preserves_folder (t : Nat) (s : BState) (m : JValue) (id : List Nat)
    (w : Waiter) (hWF : WF s) (hw : dget? s.folder_results id = some w)
    (hnm : ¬isFolderDataFor id m) :
    dget? (routerStep t s m).1.folder_results id = some w ∧
      eventIsSet (routerStep t s m).1.events w.event = eventIsSet s.events w.event := by
  cases m with
  | obj fields =>
    simp only [routerStep]
    cases hty : jget fields (cp "type") with
    | str ty =>
      dsimp only
      by_cases h1 : ty = cp "rssData"
      · rw [if_pos h1]
        exact ⟨hw, rfl⟩
      · rw [if_neg h1]
        by_cases h2 : ty = cp "singleItemData"
        · rw [if_pos h2]
          cases hiid : jget fields (cp "itemId") with
          | str iid =>
            dsimp only
            refine ⟨by rw [complete_item_folder_unchanged]; exact hw, ?_⟩
            cases hh : dget? s.single_item_results iid with
            | none => simp [complete_single_item_request, hh]
            | some w2 =>
              simp only [complete_single_item_request, hh]
              exact eventIsSet_dset_ne _ _ _ _
                (Ne.symm (cross_distinct_item_folder s hWF iid id w2 w hh hw))
          | _ => exact ⟨hw, rfl⟩
        · rw [if_neg h2]
          by_cases h3 : ty = cp "folderData"
          · rw [if_pos h3]
            cases hfp : jget fields (cp "folderPath") with
            | str fp =>
              dsimp only
              have hfp_ne : fp ≠ id := by
                intro he
                subst he
                exact hnm ⟨fields, rfl, by rw [hty, h3], hfp⟩
              refine ⟨?_, ?_⟩
              · cases hh : dget? s.folder_results fp with
                | none => simp only [complete_folder_request, hh]; exact hw
                | some w2 =>
                  simp only [complete_folder_request, hh]
                  rw [dget?_dset_ne _ _ _ _ (Ne.symm hfp_ne)]
                  exact hw
              · cases hh : dget? s.folder_results fp with
                | none => simp only [complete_folder_request, hh]
                | some w2 =>
                  simp only [complete_folder_request, hh]
                  exact eventIsSet_dset_ne _ _ _ _
                    (within_distinct_folder s hWF id fp w w2 hw hh
                      (fun he => hfp_ne he.symm))
            | _ => exact ⟨hw, rfl⟩
          · rw [if_neg h3]
            by_cases h4 : ty = cp "markReadResult"
            · rw [if_pos h4]
              cases hiid : jget fields (cp "itemId") with
              | str iid =>
                dsimp only
                refine ⟨by rw [complete_mark_folder_unchanged]; exact hw, ?_⟩
                cases hh : dget? s.mark_read_results iid with
                | none => simp [complete_mark_read_request, hh]
                | some w2 =>
                  simp only [complete_mark_read_request, hh]
                  exact eventIsSet_dset_ne _ _ _ _
                    (Ne.symm (cross_distinct_mark_folder s hWF iid id w2 w hh hw))
              | _ => exact ⟨hw, rfl⟩
            · rw [if_neg h4]
              exact ⟨hw, rfl⟩
    | _ => exact ⟨hw, rfl⟩
  | str sv =>
    simp only [routerStep]
    by_cases h1 : sv = cp "ping"
    · rw [if_pos h1]
      exact ⟨hw, rfl⟩
    · rw [if_neg h1]
      exact ⟨hw, rfl⟩
  | _ => exact ⟨hw, rfl⟩

theorem routerRun_preserves_mark (t : Nat) (msgs : List JValue) :
    ∀ (s : BState) (id : List Nat) (w : Waiter), WF s →
      dget? s.mark_read_results id = some w →
      (∀ m ∈ msgs, ¬isMarkReadResultFor id m) →
      WF (routerRun t s msgs).1 ∧
        dget? (routerRun t s msgs).1.mark_read_results id = some w ∧
        eventIsSet (routerRun t s msgs).1.events w.event = eventIsSet s.events w.event := by
  induction msgs with
  | nil => intro s id w hWF hw _; exact ⟨hWF, hw, rfl⟩
  | cons m ms ih =>
    intro s id w hWF hw hnm
    have hstep := routerStep_preserves_mark t s m id w hWF hw
      (hnm m (List.mem_cons_self _ _))
    have hWF' := WF_routerStep t s m hWF
    have hrest := ih (routerStep t s m).1 id w hWF' hstep.1
      (fun m' hm' => hnm m' (List.mem_cons_of_mem _ hm'))
    simp only [routerRun]
    exact ⟨hrest.1, hrest.2.1, hrest.2.2.trans hstep.2⟩

theorem routerRun_preserves_item (t : Nat) (msgs : List JValue) :
    ∀ (s : BState) (id : List Nat) (w : Waiter), WF s →
      dget? s.single_item_results id = some w →
      (∀ m ∈ msgs, ¬isSingleItemDataFor id m) →
      WF (routerRun t s msgs).1 ∧
        dget? (routerRun t s msgs).1.single_item_results id = some w ∧
        eventIsSet (routerRun t s msgs).1.events w.event = eventIsSet s.events w.event := by
  induction msgs with
  | nil => intro s id w hWF hw _; exact ⟨hWF, hw, rfl⟩
  | cons m ms ih =>
    intro s id w hWF hw hnm
    have hstep := routerStep_preserves_item t s m id w hWF hw
      (hnm m (List.mem_cons_self _ _))
    have hWF' := WF_routerStep t s m hWF
    have hrest := ih (routerStep t s m).1 id w hWF' hstep.1
      (fun m' hm' => hnm m' (List.mem_cons_of_mem _ hm'))
    simp only [routerRun]
    exact ⟨hrest.1, hrest.2.1, hrest.2.2.trans hstep.2⟩

theorem routerRun_preserves_folder (t : Nat) (msgs : List JValue) :
    ∀ (s : BState) (id : List Nat) (w : Waiter), WF s →
      dget? s.folder_results id = some w →
      (∀ m ∈ msgs, ¬isFolderDataFor id m) →
      WF (routerRun t s msgs).1 ∧
        dget? (routerRun t s msgs).1.folder_results id = some w ∧
        eventIsSet (routerRun t s msgs).1.events w.event = eventIsSet s.events w.event := by
  induction msgs with
  | nil => intro s id w hWF hw _; exact ⟨hWF, hw, rfl⟩
  | cons m ms ih =>
    intro s id w hWF hw hnm
    have hstep := routerStep_preserves_folder t s m id w hWF hw
      (hnm m (List.mem_cons_self _ _))
    have hWF' := WF_routerStep t s m hWF
    have hrest := ih (routerStep t s m).1 id w hWF' hstep.1
      (fun m' hm' => hnm m' (List.mem_cons_of_mem _ hm'))
    simp only [routerRun]
    exact ⟨hrest.1, hrest.2.1, hrest.2.2.trans hstep.2⟩

/-- A routed message that is not an `rssData` broadcast leaves the update
event flag and the snapshot untouched. -/
theorem routerStep_no_rssData (t : Nat) (s : BState) (m : JValue)
    (hnm : ¬isRssData m) :
    (routerStep t s m).1.data_update_event = s.data_update_event ∧
      (routerStep t s m).1.unread_items = s.unread_items := by
  cases m with
  | obj fields =>
    simp only [routerStep]
    cases hty : jget fields (cp "type") with
    | str ty =>
      dsimp only
      by_cases h1 : ty = cp "rssData"
      · exact absurd ⟨fields, rfl, by rw [hty, h1]⟩ hnm
      · rw [if_neg h1]
        by_cases h2 : ty = cp "singleItemData"
        · rw [if_pos h2]
          cases hiid : jget fields (cp "itemId") with
          | str iid => exact complete_item_flag_unchanged s iid _
          | _ => exact ⟨rfl, rfl⟩
        · rw [if_neg h2]
          by_cases h3 : ty = cp "folderData"
          · rw [if_pos h3]
            cases hfp : jget fields (cp "folderPath") with
            | str fp => exact complete_folder_flag_unchanged s fp _
            | _ => exact ⟨rfl, rfl⟩
          · rw [if_neg h3]
            by_cases h4 : ty = cp "markReadResult"
            · rw [if_pos h4]
              cases hiid : jget fields (cp "itemId") with
              | str iid => exact complete_mark_flag_unchanged s iid _
              | _ => exact ⟨rfl, rfl⟩
            · rw [if_neg h4]
              exact ⟨rfl, rfl⟩
    | _ => exact ⟨rfl, rfl⟩
  | str sv =>
    simp only [routerStep]
    by_cases h1 : sv = cp "ping"
    · rw [if_pos h1]
      exact ⟨rfl, rfl⟩
    · rw [if_neg h1]
      exact ⟨rfl, rfl⟩
  | _ => exact ⟨rfl, rfl⟩

theorem routerRun_no_rssData (t : Nat) (msgs : List JValue) :
    ∀ s : BState, (∀ m ∈ msgs, ¬isRssData m) →
      (routerRun t s msgs).1.data_update_event = s.data_update_event ∧
        (routerRun t s msgs).1.unread_items = s.unread_items := by
  induction msgs with
  | nil => intro s _; exact ⟨rfl, rfl⟩
  | cons m ms ih =>
    intro s hnm
    have hstep := routerStep_no_rssData t s m (hnm m (List.mem_cons_self _ _))
    have hrest := ih (routerStep t s m).1 (fun m' hm' => hnm m' (List.mem_cons_of_mem _ hm'))
    simp only [routerRun]
    exact ⟨hrest.1.trans hstep.1, hrest.2.trans hstep.2⟩

theorem blankParam_false_of_ne (id : List Nat) (h : id ≠ []) :
    blankParam (some id) = false := by
  cases id with
  | nil => exact absurd rfl h
  | cons a l => rfl

theorem register_mark_fresh (s : BState) (id : List Nat) (h : WF s) :
    dget? (register_mark_read_request s id).2.mark_read_results id =
        some ⟨s.next_event, JValue.bool false⟩ ∧
      eventIsSet (register_mark_read_request s id).2.events s.next_event = false := by
  refine ⟨dget?_dset_self _ _ _, ?_⟩
  simp only [register_mark_read_request, eventIsSet, dget?_append,
    not_mem_dom_of_lt s.events s.next_event h.domBound]
  simp [dget?]

theorem register_item_fresh (s : BState) (id : List Nat) (h : WF s) :
    dget? (register_single_item_request s id).2.single_item_results id =
        some ⟨s.next_event, JValue.null⟩ ∧
      eventIsSet (register_single_item_request s id).2.events s.next_event = false := by
  refine ⟨dget?_dset_self _ _ _, ?_⟩
  simp only [register_single_item_request, eventIsSet, dget?_append,
    not_mem_dom_of_lt s.events s.next_event h.domBound]
  simp [dget?]

theorem register_folder_fresh (s : BState) (id : List Nat) (h : WF s) :
    dget? (register_folder_request s id).2.folder_results id =
        some ⟨s.next_event, JValue.arr []⟩ ∧
      eventIsSet (register_folder_request s id).2.events s.next_event = false := by
  refine ⟨dget?_dset_self _ _ _, ?_⟩
  simp only [register_folder_request, eventIsSet, dget?_append,
    not_mem_dom_of_lt s.events s.next_event h.domBound]
  simp [dget?]

/-- Claim C3: a keyed mark-as-read dispatch for item `id` whose wait window
sees no matching `markReadResult` completion answers with the 504
request-timeout error, and afterwards the Correlation Store holds no
mark-read entry for `id` — the timeout path runs the cleanup, so a late reply
cannot be misattributed to a later call reusing the same id.  (The wait is the
5-second `event.wait`; its expiry is modelled by the event flag being unset
once the window's arrivals are routed.) -/
theorem C3_markread_timeout_cleanup :
    ∀ (s : BState) (id : List Nat) (t : Nat) (msgs : List JValue), WF s → id ≠ [] →
      (∀ m ∈ msgs, ¬isMarkReadResultFor id m) →
      (handle_mark_read s (some id) msgs t).1 =
          sendError (cp "Operation timed out") 504 ∧
        dget? (handle_mark_read s (some id) msgs t).2.2.mark_read_results id = none := by
  intro s id t msgs hWF hid hnm
  have hblank : blankParam (some id) = false := blankParam_false_of_ne id hid
  have hfresh := register_mark_fresh s id hWF
  have hWF1 := WF_register_mark s id hWF
  have hrun := routerRun_preserves_mark t msgs (register_mark_read_request s id).2 id
    ⟨s.next_event, JValue.bool false⟩ hWF1 hfresh.1 hnm
  have hev : eventIsSet (routerRun t (register_mark_read_request s id).2 msgs).1.events
      (register_mark_read_request s id).1 = false := by
    have h2 := hrun.2.2
    rw [Waiter.event_mk] at h2
    exact h2.trans hfresh.2
  constructor
  · simp [handle_mark_read, hblank, hev]
  · simp only [handle_mark_read, hblank, Bool.false_eq_true, if_false, Option.getD_some,
      hev, cleanup_mark_read_request]
    exact dget?_derase_self _ _ hrun.1.markNodup

/-- Witness for C3: at the initial state, a mark-read for "42" with an empty
wait window times out with a 504 and leaves no entry for "42". -/
theorem C3_markread_timeout_cleanup_witness :
    (handle_mark_read initState (some (cp "42")) [] 0).1 =
        sendError (cp "Operation timed out") 504 ∧
      dget? (handle_mark_read initState (some (cp "42")) [] 0).2.2.mark_read_results
          (cp "42") =
        none :=
  C3_markread_timeout_cleanup initState (cp "42") 0 [] WF_initState (by decide)
    (by intro m hm; exact absurd hm (List.not_mem_nil m))

theorem routerStep_rssData (t : Nat) (s : BState) (d : JValue) :
    routerStep t s
        (JValue.obj [(cp "type", JValue.str (cp "rssData")), (cp "data", d)]) =
      (update_rss_data s t d, [ackReceived]) := by
  have e1 : ¬cp "type" = cp "data" := by decide
  simp [routerStep, jget, jgetD, dget?, e1]

theorem routerStep_singleItemData (t : Nat) (s : BState) (id : List Nat) (d : JValue) :
    routerStep t s
        (JValue.obj [(cp "type", JValue.str (cp "singleItemData")),
          (cp "itemId", JValue.str id), (cp "data", d)]) =
      (complete_single_item_request s id d, [ackAcknowledged]) := by
  have e1 : ¬cp "type" = cp "itemId" := by decide
  have e2 : ¬cp "type" = cp "data" := by decide
  have e3 : ¬cp "itemId" = cp "data" := by decide
  have e4 : ¬cp "singleItemData" = cp "rssData" := by decide
  simp [routerStep, jget, jgetD, dget?, e1, e2, e3, e4]

theorem routerStep_singleItemData_nodata (t : Nat) (s : BState) (id : List Nat) :
    routerStep t s
        (JValue.obj [(cp "type", JValue.str (cp "singleItemData")),
          (cp "itemId", JValue.str id)]) =
      (complete_single_item_request s id JValue.null, [ackAcknowledged]) := by
  have e1 : ¬cp "type" = cp "itemId" := by decide
  have e2 : ¬cp "type" = cp "data" := by decide
  have e3 : ¬cp "itemId" = cp "data" := by decide
  have e4 : ¬cp "singleItemData" = cp "rssData" := by decide
  simp [routerStep, jget, jgetD, dget?, e1, e2, e3, e4]

theorem routerRun_append (t : Nat) (ms1 ms2 : List JValue) :
    ∀ s : BState,
      routerRun t s (ms1 ++ ms2) =
        ((routerRun t (routerRun t s ms1).1 ms2).1,
          (routerRun t s ms1).2 ++ (routerRun t (routerRun t s ms1).1 ms2).2) := by
  induction ms1 with
  | nil => intro s; simp [routerRun]
  | cons m ms ih =>
    intro s
    simp only [List.cons_append, routerRun, List.append_eq]
    rw [ih]
    simp [List.append_assoc]

/-- Claim C9: when a `singleItemData` completion for the requested id arrives
during the wait and fires the waiter's event, but carries a `null` — or
missing, or otherwise falsy — `data` payload, `handle_get_item` answers with
the 404 "Item not found" error rather than a success result, even though the
matching reply was received in time (the completion event is indeed set when
the handler re-checks it). -/
theorem C9_null_item_not_found :
    ∀ (s : BState) (id : List Nat) (t : Nat) (d : JValue), id ≠ [] →
      jTruthy d = false →
      ((handle_get_item s (some id)
          [JValue.obj [(cp "type", JValue.str (cp "singleItemData")),
            (cp "itemId", JValue.str id), (cp "data", d)]] t).1 =
        sendError (cp "Item not found") 404) ∧
      ((handle_get_item s (some id)
          [JValue.obj [(cp "type", JValue.str (cp "singleItemData")),
            (cp "itemId", JValue.str id)]] t).1 =
        sendError (cp "Item not found") 404) ∧
      eventIsSet
          (routerRun t (register_single_item_request s id).2
            [JValue.obj [(cp "type", JValue.str (cp "singleItemData")),
              (cp "itemId", JValue.str id), (cp "data", d)]]).1.events
          (register_single_item_request s id).1 =
        true := by
  intro s id t d hid hd
  have hblank := blankParam_false_of_ne id hid
  have hfresh : dget? (register_single_item_request s id).2.single_item_results id =
      some ⟨s.next_event, JValue.null⟩ := dget?_dset_self _ _ _
  have hstate : ∀ d' : JValue,
      complete_single_item_request (register_single_item_request s id).2 id d' =
        { (register_single_item_request s id).2 with
          single_item_results :=
            dset (register_single_item_request s id).2.single_item_results id
              ⟨s.next_event, d'⟩
          events := dset (register_single_item_request s id).2.events s.next_event true } := by
    intro d'
    simp [complete_single_item_request, hfresh]
  have hrun : ∀ d' : JValue,
      routerRun t (register_single_item_request s id).2
          [JValue.obj [(cp "type", JValue.str (cp "singleItemData")),
            (cp "itemId", JValue.str id), (cp "data", d')]] =
        (complete_single_item_request (register_single_item_request s id).2 id d',
          [ackAcknowledged]) := by
    intro d'
    simp [routerRun, routerStep_singleItemData]
  have hrun2 :
      routerRun t (register_single_item_request s id).2
          [JValue.obj [(cp "type", JValue.str (cp "singleItemData")),
            (cp "itemId", JValue.str id)]] =
        (complete_single_item_request (register_single_item_request s id).2 id
            JValue.null,
          [ackAcknowledged]) := by
    simp [routerRun, routerStep_singleItemData_nodata]
  have hev : ∀ d' : JValue,
      eventIsSet
          (complete_single_item_request (register_single_item_request s id).2 id
            d').events (register_single_item_request s id).1 =
        true := by
    intro d'
    rw [hstate d']
    exact eventIsSet_dset_self _ _
  have hget : ∀ d' : JValue,
      get_single_item_result
          (complete_single_item_request (register_single_item_request s id).2 id d')
          id =
        (d',
          { complete_single_item_request (register_single_item_request s id).2 id d' with
            single_item_results :=
              derase (complete_single_item_request (register_single_item_request s id).2
                  id d').single_item_results id }) := by
    intro d'
    have : dget? (complete_single_item_request (register_single_item_request s id).2
        id d').single_item_results id = some ⟨s.next_event, d'⟩ := by
      rw [hstate d']
      exact dget?_dset_self _ _ _
    simp only [get_single_item_result, this]
  refine ⟨?_, ?_, ?_⟩
  · simp [handle_get_item, hblank, hrun d, hev d, hget d, hd]
  · simp [handle_get_item, hblank, hrun2, hev JValue.null, hget JValue.null, jTruthy]
  · rw [hrun d]
    exact hev d

/-- Witness for C9: at the initial state, a reply for item "9" with a `null`
payload arriving in time still yields the 404 "Item not found" error. -/
theorem C9_null_item_not_found_witness :
    ((handle_get_item initState (some (cp "9"))
        [JValue.obj [(cp "type", JValue.str (cp "singleItemData")),
          (cp "itemId", JValue.str (cp "9")), (cp "data", JValue.null)]] 0).1 =
      sendError (cp "Item not found") 404) ∧
    eventIsSet
        (routerRun 0 (register_single_item_request initState (cp "9")).2
          [JValue.obj [(cp "type", JValue.str (cp "singleItemData")),
            (cp "itemId", JValue.str (cp "9")), (cp "data", JValue.null)]]).1.events
        (register_single_item_request initState (cp "9")).1 =
      true := by
  have h := C9_null_item_not_found initState (cp "9") 0 JValue.null (by decide) (by rfl)
  exact ⟨h.1, h.2.2⟩

/-- Claim C10: a mark-read, single-item, or folder request whose required
query parameter is missing or empty gets the 400 error response before
anything else happens: no outbound frame is sent, no waiter is registered, and
the whole state — Correlation Store and broadcast snapshot included — is
returned unchanged. -/
theorem C10_blank_param_rejected :
    ∀ (s : BState) (arrivals : List JValue) (t : Nat) (q : Option (List Nat)),
      blankParam q = true →
      handle_mark_read s q arrivals t =
          (sendError (cp "itemId is required") 400, [], s) ∧
        handle_get_item s q arrivals t =
          (sendError (cp "itemId is required") 400, [], s) ∧
        handle_get_folder s q arrivals t =
          (sendError (cp "folder is required") 400, [], s) := by
  intro s arrivals t q h
  refine ⟨?_, ?_, ?_⟩ <;>
    simp [handle_mark_read, handle_get_item, handle_get_folder, h]

/-- Witness for C10: a missing parameter at the initial state yields the 400
responses with no frame sent and the state unchanged. -/
theorem C10_blank_param_rejected_witness :
    handle_mark_read initState none [] 0 =
        (sendError (cp "itemId is required") 400, [], initState) ∧
      handle_get_item initState none [] 0 =
        (sendError (cp "itemId is required") 400, [], initState) ∧
      handle_get_folder initState none [] 0 =
        (sendError (cp "folder is required") 400, [], initState) :=
  C10_blank_param_rejected initState [] 0 none (by rfl)

/-- Counterexample to claim C2 as stated: for the broadcast snapshot refresh
(getUnreadRSS) kind the HTTP layer does NOT map the timeout to a
request-timeout response.  At the initial state with no completion arriving,
`handle_get_unread` — the timed-out dispatch — answers with HTTP status 200
(not 504 as the keyed handlers do), carrying the cached (stale) snapshot and a
body-level `"status": "timeout"` marker instead. -/
theorem C2_counterexample_unread_timeout_is_200 :
    (handle_get_unread initState [] 0).1.status = 200 ∧
      (handle_get_unread initState [] 0).1.status ≠ 504 ∧
      (handle_get_unread initState [] 0).1.body =
        JValue.obj
          [(cp "status", JValue.str (cp "timeout")), (cp "data", JValue.arr []),
            (cp "message",
              JValue.str (cp "Timeout waiting for fresh data, returning cached."))] :=
  ⟨rfl, by decide, rfl⟩

/-- Claim C2, amended: every dispatch returns either a result or a
distinguishable TimedOut outcome, and when no matching completion arrives in
the wait window the three keyed kinds (markAsRead, getSingleItem,
getFolderItems) map the timeout to the 504 request-timeout error response,
while the broadcast snapshot refresh (getUnreadRSS) kind instead answers 200
with body status "timeout" and the cached snapshot. -/
theorem C2_amended_timeout_mapping :
    (∀ (s : BState) (id : List Nat) (t : Nat) (msgs : List JValue), WF s → id ≠ [] →
      (∀ m ∈ msgs, ¬isMarkReadResultFor id m) →
      (handle_mark_read s (some id) msgs t).1 =
        sendError (cp "Operation timed out") 504) ∧
    (∀ (s : BState) (id : List Nat) (t : Nat) (msgs : List JValue), WF s → id ≠ [] →
      (∀ m ∈ msgs, ¬isSingleItemDataFor id m) →
      (handle_get_item s (some id) msgs t).1 =
        sendError (cp "Operation timed out") 504) ∧
    (∀ (s : BState) (id : List Nat) (t : Nat) (msgs : List JValue), WF s → id ≠ [] →
      (∀ m ∈ msgs, ¬isFolderDataFor id m) →
      (handle_get_folder s (some id) msgs t).1 =
        sendError (cp "Operation timed out") 504) ∧
    (∀ (s : BState) (t : Nat) (msgs : List JValue), (∀ m ∈ msgs, ¬isRssData m) →
      (handle_get_unread s msgs t).1 =
        sendJson
          (JValue.obj
            [(cp "status", JValue.str (cp "timeout")), (cp "data", s.unread_items),
              (cp "message",
                JValue.str (cp "Timeout waiting for fresh data, returning cached."))])
          200) := by
  refine ⟨?_, ?_, ?_, ?_⟩
  · intro s id t msgs hWF hid hnm
    have hblank := blankParam_false_of_ne id hid
    have hfresh := register_mark_fresh s id hWF
    have hWF1 := WF_register_mark s id hWF
    have hrun := routerRun_preserves_mark t msgs (register_mark_read_request s id).2 id
      ⟨s.next_event, JValue.bool false⟩ hWF1 hfresh.1 hnm
    have hev : eventIsSet
        (routerRun t (register_mark_read_request s id).2 msgs).1.events
        (register_mark_read_request s id).1 = false := by
      have h2 := hrun.2.2
      rw [Waiter.event_mk] at h2
      exact h2.trans hfresh.2
    simp [handle_mark_read, hblank, hev]
  · intro s id t msgs hWF hid hnm
    have hblank := blankParam_false_of_ne id hid
    have hfresh := register_item_fresh s id hWF
    have hWF1 := WF_register_item s id hWF
    have hrun := routerRun_preserves_item t msgs (register_single_item_request s id).2 id
      ⟨s.next_event, JValue.null⟩ hWF1 hfresh.1 hnm
    have hev : eventIsSet
        (routerRun t (register_single_item_request s id).2 msgs).1.events
        (register_single_item_request s id).1 = false := by
      have h2 := hrun.2.2
      rw [Waiter.event_mk] at h2
      exact h2.trans hfresh.2
    simp [handle_get_item, hblank, hev]
  · intro s id t msgs hWF hid hnm
    have hblank := blankParam_false_of_ne id hid
    have hfresh := register_folder_fresh s id hWF
    have hWF1 := WF_register_folder s id hWF
    have hrun := routerRun_preserves_folder t msgs (register_folder_request s id).2 id
      ⟨s.next_event, JValue.arr []⟩ hWF1 hfresh.1 hnm
    have hev : eventIsSet
        (routerRun t (register_folder_request s id).2 msgs).1.events
        (register_folder_request s id).1 = false := by
      have h2 := hrun.2.2
      rw [Waiter.event_mk] at h2
      exact h2.trans hfresh.2
    simp [handle_get_folder, hblank, hev]
  · intro s t msgs hnm
    have hrun := routerRun_no_rssData t msgs { s with data_update_event := false } hnm
    have hev : (routerRun t { s with data_update_event := false } msgs).1.data_update_event
        = false := hrun.1
    simp [handle_get_unread, hev, get_rss_data, hrun.2]

/-- Witness for the amended C2: at the initial state with empty wait windows,
each keyed handler answers 504 and the broadcast handler answers 200 with body
status "timeout". -/
theorem C2_amended_timeout_mapping_witness :
    (handle_mark_read initState (some (cp "42")) [] 0).1 =
        sendError (cp "Operation timed out") 504 ∧
      (handle_get_item initState (some (cp "42")) [] 0).1 =
        sendError (cp "Operation timed out") 504 ∧
      (handle_get_folder initState (some (cp "F")) [] 0).1 =
        sendError (cp "Operation timed out") 504 ∧
      (handle_get_unread initState [] 0).1 =
        sendJson
          (JValue.obj
            [(cp "status", JValue.str (cp "timeout")), (cp "data", JValue.arr []),
              (cp "message",
                JValue.str (cp "Timeout waiting for fresh data, returning cached."))])
          200 := by
  refine ⟨?_, ?_, ?_, ?_⟩
  · exact C2_amended_timeout_mapping.1 initState (cp "42") 0 [] WF_initState (by decide)
      (by intro m hm; exact absurd hm (List.not_mem_nil m))
  · exact C2_amended_timeout_mapping.2.1 initState (cp "42") 0 [] WF_initState (by decide)
      (by intro m hm; exact absurd hm (List.not_mem_nil m))
  · exact C2_amended_timeout_mapping.2.2.1 initState (cp "F") 0 [] WF_initState
      (by decide) (by intro m hm; exact absurd hm (List.not_mem_nil m))
  · exact C2_amended_timeout_mapping.2.2.2 initState 0 []
      (by intro m hm; exact absurd hm (List.not_mem_nil m))

/-- Claim C8: the broadcast dispatch clears the data-update event before
sending getUnreadRSS and waiting, so a flag left set by a previous broadcast
round never wakes it spuriously — with the flag initially set and no rssData
arriving, the handler still takes the timeout branch; and when an rssData
update with payload `d` arrives during the wait (after any other traffic), the
snapshot's payload and timestamp are replaced wholesale, the event fires, and
the waiter returns the fresh payload `d`, not the stale one. -/
theorem C8_clear_then_wait_no_spurious_wakeup :
    (∀ (s : BState) (t : Nat) (msgs : List JValue), s.data_update_event = true →
      (∀ m ∈ msgs, ¬isRssData m) →
      (handle_get_unread s msgs t).1 =
        sendJson
          (JValue.obj
            [(cp "status", JValue.str (cp "timeout")), (cp "data", s.unread_items),
              (cp "message",
                JValue.str (cp "Timeout waiting for fresh data, returning cached."))])
          200) ∧
    (∀ (s : BState) (t : Nat) (msgs : List JValue) (d : List JValue),
      (handle_get_unread s
          (msgs ++
            [JValue.obj
              [(cp "type", JValue.str (cp "rssData")), (cp "data", JValue.arr d)]])
          t).1 =
        sendJson
          (JValue.obj
            [(cp "status", JValue.str (cp "success")), (cp "data", JValue.arr d),
              (cp "count", JValue.num (d.length : Int))])
          200 ∧
      (handle_get_unread s
          (msgs ++
            [JValue.obj
              [(cp "type", JValue.str (cp "rssData")), (cp "data", JValue.arr d)]])
          t).2.2.unread_items = JValue.arr d ∧
      (handle_get_unread s
          (msgs ++
            [JValue.obj
              [(cp "type", JValue.str (cp "rssData")), (cp "data", JValue.arr d)]])
          t).2.2.timestamp = t ∧
      (handle_get_unread s
          (msgs ++
            [JValue.obj
              [(cp "type", JValue.str (cp "rssData")), (cp "data", JValue.arr d)]])
          t).2.2.data_update_event = true) := by
  constructor
  · intro s t msgs _ hnm
    have hrun := routerRun_no_rssData t msgs { s with data_update_event := false } hnm
    simp [handle_get_unread, hrun.1, get_rss_data, hrun.2]
  · intro s t msgs d
    have hstate : ∀ s1 : BState,
        (routerRun t s1
            (msgs ++
              [JValue.obj
                [(cp "type", JValue.str (cp "rssData")), (cp "data", JValue.arr d)]])).1 =
          update_rss_data (routerRun t s1 msgs).1 t (JValue.arr d) := by
      intro s1
      rw [routerRun_append]
      simp [routerRun, routerStep_rssData]
    simp [handle_get_unread, hstate, update_rss_data, get_rss_data, pyLen]

/-- Witness for C8: with the previous round's flag still set and an empty wait
window, the handler times out with the cached (empty) snapshot; and an rssData
arrival with one item yields the fresh one-item payload and updates the
snapshot and timestamp. -/
theorem C8_clear_then_wait_no_spurious_wakeup_witness :
    (handle_get_unread { initState with data_update_event := true } [] 0).1 =
        sendJson
          (JValue.obj
            [(cp "status", JValue.str (cp "timeout")), (cp "data", JValue.arr []),
              (cp "message",
                JValue.str (cp "Timeout waiting for fresh data, returning cached."))])
          200 ∧
      (handle_get_unread initState
          [JValue.obj
            [(cp "type", JValue.str (cp "rssData")),
              (cp "data", JValue.arr [JValue.str (cp "x")])]] 7).1 =
        sendJson
          (JValue.obj
            [(cp "status", JValue.str (cp "success")),
              (cp "data", JValue.arr [JValue.str (cp "x")]),
              (cp "count", JValue.num 1)])
          200 ∧
      (handle_get_unread initState
          [JValue.obj
            [(cp "type", JValue.str (cp "rssData")),
              (cp "data", JValue.arr [JValue.str (cp "x")])]] 7).2.2.timestamp = 7 := by
  refine ⟨?_, ?_, ?_⟩
  · exact C8_clear_then_wait_no_spurious_wakeup.1 { initState with data_update_event := true }
      0 [] rfl (by intro m hm; exact absurd hm (List.not_mem_nil m))
  · have h := (C8_clear_then_wait_no_spurious_wakeup.2 initState 7 []
      [JValue.str (cp "x")]).1
    simpa using h
  · have h := (C8_clear_then_wait_no_spurious_wakeup.2 initState 7 []
      [JValue.str (cp "x")]).2.2.1
    simpa using h

theorem packLE_length (n : Nat) (b : List Nat) (h : packLE n = some b) : b.length = 4 := by
  by_cases hn : n < 4294967296
  · simp only [packLE, if_pos hn, Option.some.injEq] at h
    subst h
    rfl
  · simp [packLE, hn] at h

theorem unpackLE_packLE (n : Nat) (b : List Nat) (h : packLE n = some b) :
    unpackLE b = n := by
  by_cases hn : n < 4294967296
  · simp only [packLE, if_pos hn, Option.some.injEq] at h
    subst h
    simp only [unpackLE]
    omega
  · simp [packLE, hn] at h

/-- Reading one frame from a well-formed frame boundary: the prefix decodes to
the payload length, exactly the payload is consumed, and the result is the
payload's UTF-8/JSON decode (with `None` ≅ `null` for either failure). -/
theorem get_message_frame (payload rest pfx : List Nat)
    (h : packLE payload.length = some pfx) :
    get_message (pfx ++ (payload ++ rest)) =
      (match utf8Decode payload with
        | none => (JValue.null, rest)
        | some cs =>
          match loads cs with
          | none => (JValue.null, rest)
          | some v => (v, rest)) := by
  have hlen : pfx.length = 4 := packLE_length _ _ h
  have htake : (pfx ++ (payload ++ rest)).take 4 = pfx := by
    rw [← hlen, List.take_left]
  have hdrop : (pfx ++ (payload ++ rest)).drop 4 = payload ++ rest := by
    rw [← hlen, List.drop_left]
  have hup : unpackLE pfx = payload.length := unpackLE_packLE _ _ h
  simp only [get_message, htake, hdrop, hlen, hup, List.take_left, List.drop_left]
  norm_num

theorem get_message_shrinks (stream : List Nat)
    (h : (get_message stream).1 ≠ JValue.null) :
    (get_message stream).2.length + 4 ≤ stream.length := by
  have hlen : 4 ≤ stream.length := by
    rcases Nat.lt_or_ge stream.length 4 with hc | hg
    · exfalso
      apply h
      show (get_message stream).1 = JValue.null
      simp only [get_message]
      by_cases h0 : (stream.take 4).length = 0
      · rw [if_pos h0]
      · rw [if_neg h0]
        have h2 : (stream.take 4).length < 4 := by
          rw [List.length_take]
          omega
        rw [if_pos h2]
    · exact hg
  have ht4 : (stream.take 4).length = 4 := by
    rw [List.length_take]
    omega
  have hrlen : ∀ L : Nat, ((stream.drop 4).drop L).length + 4 ≤ stream.length := by
    intro L
    simp only [List.length_drop]
    omega
  simp only [get_message]
  rw [if_neg (by simp [ht4]), if_neg (by simp [ht4])]
  cases utf8Decode ((stream.drop 4).take (unpackLE (stream.take 4))) with
  | none => exact hrlen _
  | some cs =>
    dsimp only
    cases loads cs with
    | none => exact hrlen _
    | some v => exact hrlen _

theorem mainLoopFuel_stable (t : Nat) :
    ∀ (f1 : Nat) (s : BState) (stream : List Nat) (f2 : Nat),
      stream.length < f1 → stream.length < f2 →
      mainLoopFuel t f1 s stream = mainLoopFuel t f2 s stream := by
  intro f1
  induction f1 with
  | zero =>
    intro s stream f2 h1 _
    omega
  | succ f ih =>
    intro s stream f2 h1 h2
    cases f2 with
    | zero => omega
    | succ g =>
      rcases hgm : get_message stream with ⟨m, rest⟩
      simp only [mainLoopFuel, hgm]
      cases m with
      | null => rfl
      | _ =>
        have hne : (get_message stream).1 ≠ JValue.null := by
          rw [hgm]
          simp
        have hlen := get_message_shrinks stream hne
        rw [hgm] at hlen
        simp only at hlen
        dsimp only
        rw [ih _ rest g (by omega) (by omega)]

theorem routerStep_unknownType (t : Nat) (s : BState) (fields : List (List Nat × JValue))
    (ty : List Nat) (hty : jget fields (cp "type") = JValue.str ty)
    (h1 : ty ≠ cp "rssData") (h2 : ty ≠ cp "singleItemData") (h3 : ty ≠ cp "folderData")
    (h4 : ty ≠ cp "markReadResult") :
    routerStep t s (JValue.obj fields) = (s, []) := by
  simp [routerStep, hty, h1, h2, h3, h4]

/-- Counterexample to claim C1 as stated: a malformed frame does NOT merely
drop that frame with the loop continuing.  The stream carrying a frame whose
payload `x` is not JSON, followed by a perfectly well-formed `"ping"` frame,
makes the loop exit immediately — no `"pong"` is emitted and the second frame
is never processed — whereas the `"ping"` frame alone is processed and
answered.  (`[1,0,0,0]` and `[6,0,0,0]` are the native-endian length
prefixes.) -/
theorem C1_counterexample_malformed_stops_loop :
    main_loop 0 initState (([1, 0, 0, 0] ++ cp "x") ++ ([6, 0, 0, 0] ++ cp "\"ping\"")) =
        (initState, []) ∧
      main_loop 0 initState ([6, 0, 0, 0] ++ cp "\"ping\"") =
        (initState, [JValue.str (cp "pong")]) :=
  ⟨rfl, rfl⟩

/-- Claim C1, amended: a malformed inbound frame (undecodable length prefix or
non-JSON payload) is logged, but `get_message` then returns the same `None`
sentinel that signals stream closure, so the inbound router loop TERMINATES on
it exactly as on end of stream, processing no further frames; only a
well-formed frame with an unrecognized `type` discriminator is skipped with
the loop continuing on the rest of the stream. -/
theorem C1_amended_malformed_frame_terminates_loop :
    (∀ (t : Nat) (s : BState) (stream : List Nat),
      (get_message stream).1 = JValue.null → main_loop t s stream = (s, [])) ∧
    (∀ (t : Nat) (s : BState) (payload rest pfx : List Nat),
      packLE payload.length = some pfx →
      (utf8Decode payload = none ∨
        ∃ cs, utf8Decode payload = some cs ∧ loads cs = none) →
      main_loop t s (pfx ++ (payload ++ rest)) = (s, [])) ∧
    (∀ (t : Nat) (s : BState) (stream : List Nat) (fields : List (List Nat × JValue))
        (ty : List Nat) (rest : List Nat),
      get_message stream = (JValue.obj fields, rest) →
      jget fields (cp "type") = JValue.str ty →
      ty ≠ cp "rssData" → ty ≠ cp "singleItemData" → ty ≠ cp "folderData" →
      ty ≠ cp "markReadResult" →
      main_loop t s stream = main_loop t s rest) := by
  have hnull : ∀ (t : Nat) (s : BState) (stream : List Nat),
      (get_message stream).1 = JValue.null → main_loop t s stream = (s, []) := by
    intro t s stream h
    rcases hgm : get_message stream with ⟨m, rest⟩
    rw [hgm] at h
    simp only at h
    subst h
    simp [main_loop, mainLoopFuel, hgm]
  refine ⟨hnull, ?_, ?_⟩
  · intro t s payload rest pfx hp hbad
    apply hnull
    rw [get_message_frame payload rest pfx hp]
    rcases hbad with hu | ⟨cs, hu, hl⟩
    · rw [hu]
    · rw [hu]
      dsimp only
      rw [hl]
  · intro t s stream fields ty rest hgm hty h1 h2 h3 h4
    have hne : (get_message stream).1 ≠ JValue.null := by
      rw [hgm]
      simp
    have hlen := get_message_shrinks stream hne
    rw [hgm] at hlen
    simp only at hlen
    have hstep := routerStep_unknownType t s fields ty hty h1 h2 h3 h4
    simp only [main_loop]
    conv_lhs => rw [mainLoopFuel]
    rw [hgm]
    dsimp only
    rw [hstep]
    dsimp only
    rw [mainLoopFuel_stable t stream.length s rest (rest.length + 1) (by omega) (by omega)]
    simp

/-- Witness for the amended C1: a frame with non-JSON payload `x` terminates
the loop even with a good `"ping"` frame after it, and a well-formed frame
with unknown type `nonsense` is skipped with the loop continuing to answer a
following `"ping"`. -/
theorem C1_amended_malformed_frame_terminates_loop_witness :
    main_loop 0 initState
        (([1, 0, 0, 0] ++ cp "x") ++ ([6, 0, 0, 0] ++ cp "\"ping\"")) = (initState, []) ∧
      main_loop 0 initState
          (([19, 0, 0, 0] ++ cp "\x7b\"type\":\"nonsense\"\x7d") ++
            ([6, 0, 0, 0] ++ cp "\"ping\"")) =
        main_loop 0 initState ([6, 0, 0, 0] ++ cp "\"ping\"") := by
  constructor
  · exact C1_amended_malformed_frame_terminates_loop.2.1 0 initState (cp "x")
      ([6, 0, 0, 0] ++ cp "\"ping\"") [1, 0, 0, 0] (by rfl) (Or.inr ⟨cp "x", rfl, rfl⟩)
  · exact C1_amended_malformed_frame_terminates_loop.2.2 0 initState _
      [(cp "type", JValue.str (cp "nonsense"))] (cp "nonsense")
      ([6, 0, 0, 0] ++ cp "\"ping\"") (by rfl) (by rfl) (by decide) (by decide)
      (by decide) (by decide)

theorem jvalue_ind (P : JValue → Prop) (h0 : P JValue.null) (h1 : ∀ b, P (JValue.bool b))
    (h2 : ∀ n, P (JValue.num n)) (h3 : ∀ s, P (JValue.str s))
    (h4 : ∀ xs, (∀ x ∈ xs, P x) → P (JValue.arr xs))
    (h5 : ∀ ps, (∀ p ∈ ps, P p.2) → P (JValue.obj ps)) : ∀ v, P v := by
  have key : ∀ n v, sizeOf (v : JValue) < n → P v := by
    intro n
    induction n with
    | zero =>
      intro v h
      omega
    | succ n ih =>
      intro v hv
      match v with
      | JValue.null => exact h0
      | JValue.bool b => exact h1 b
      | JValue.num m => exact h2 m
      | JValue.str s => exact h3 s
      | JValue.arr xs =>
        refine h4 xs (fun x hx => ih x ?_)
        have hm := List.sizeOf_lt_of_mem hx
        have hs : sizeOf (JValue.arr xs) = 1 + sizeOf xs := by simp
        omega
      | JValue.obj ps =>
        refine h5 ps (fun p hp => ih p.2 ?_)
        have hm := List.sizeOf_lt_of_mem hp
        have hs : sizeOf (JValue.obj ps) = 1 + sizeOf ps := by simp
        have hp2 : sizeOf p.2 < sizeOf p := by
          obtain ⟨a, b⟩ := p
          simp
        omega
  intro v
  exact key (sizeOf v + 1) v (by omega)

theorem hexVal_hexDig (d : Nat) (h : d < 16) : hexVal (hexDig d) = some d := by
  simp only [hexVal, hexDig]
  split_ifs <;> (congr 1; omega)

theorem hexDig_le (d : Nat) (h : d < 16) : hexDig d < 128 := by
  simp only [hexDig]
  split_ifs <;> omega

theorem escChar_quote : escChar 34 = [92, 34] := rfl

theorem escChar_backslash : escChar 92 = [92, 92] := rfl

theorem escChar_raw (c : Nat) (h1 : 32 ≤ c) (h2 : c < 127) (h3 : ¬c = 34) (h4 : ¬c = 92) :
    escChar c = [c] := by
  have n8 : ¬c = 8 := by omega
  have n12 : ¬c = 12 := by omega
  have n10 : ¬c = 10 := by omega
  have n13 : ¬c = 13 := by omega
  have n9 : ¬c = 9 := by omega
  simp only [escChar]
  rw [if_neg h3, if_neg h4, if_neg n8, if_neg n12, if_neg n10, if_neg n13, if_neg n9,
    if_pos ⟨h1, h2⟩]

theorem escChar_u4 (c : Nat) (hin : c < 65536) (hout : ¬(32 ≤ c ∧ c < 127)) (h3 : ¬c = 34)
    (h4 : ¬c = 92) (h5 : ¬c = 8) (h6 : ¬c = 12) (h7 : ¬c = 10) (h8 : ¬c = 13)
    (h9 : ¬c = 9) : escChar c = 92 :: 117 :: hex4 c := by
  simp only [escChar]
  rw [if_neg h3, if_neg h4, if_neg h5, if_neg h6, if_neg h7, if_neg h8, if_neg h9,
    if_neg hout, if_pos hin]

theorem escChar_astral (c : Nat) (h : 65536 ≤ c) :
    escChar c =
      (92 :: 117 :: hex4 (55296 + (c - 65536) / 1024 % 1024)) ++
        (92 :: 117 :: hex4 (56320 + (c - 65536) % 1024)) := by
  have n34 : ¬c = 34 := by omega
  have n92 : ¬c = 92 := by omega
  have n8 : ¬c = 8 := by omega
  have n12 : ¬c = 12 := by omega
  have n10 : ¬c = 10 := by omega
  have n13 : ¬c = 13 := by omega
  have n9 : ¬c = 9 := by omega
  have nraw : ¬(32 ≤ c ∧ c < 127) := by omega
  have nbmp : ¬c < 65536 := by omega
  simp only [escChar]
  rw [if_neg n34, if_neg n92, if_neg n8, if_neg n12, if_neg n10, if_neg n13, if_neg n9,
    if_neg nraw, if_neg nbmp]

theorem psbF_quote (fuel : Nat) (cs : List Nat) :
    parseStringBodyF (fuel + 1) (34 :: cs) = some ([], cs) := by
  simp [parseStringBodyF]

theorem psbF_raw (fuel : Nat) (c : Nat) (cs : List Nat) (h1 : ¬c = 34) (h2 : ¬c = 92)
    (h3 : ¬c < 32) :
    parseStringBodyF (fuel + 1) (c :: cs) =
      (parseStringBodyF fuel cs).map (fun p => (c :: p.1, p.2)) := by
  simp [parseStringBodyF, h1, h2, h3]

theorem psbF_simple (fuel : Nat) (e ch : Nat) (cs : List Nat) (hne : ¬e = 117)
    (h : simpleEscape e = some ch) :
    parseStringBodyF (fuel + 1) (92 :: e :: cs) =
      (parseStringBodyF fuel cs).map (fun p => (ch :: p.1, p.2)) := by
  simp [parseStringBodyF, hne, h]

theorem psbF_u4 (fuel : Nat) (a b c1 d va vb vc vd : Nat) (cs : List Nat)
    (ha : hexVal a = some va) (hb : hexVal b = some vb) (hc : hexVal c1 = some vc)
    (hd : hexVal d = some vd)
    (hhi : ¬(55296 ≤ va * 4096 + vb * 256 + vc * 16 + vd ∧
      va * 4096 + vb * 256 + vc * 16 + vd ≤ 56319)) :
    parseStringBodyF (fuel + 1) (92 :: 117 :: a :: b :: c1 :: d :: cs) =
      (parseStringBodyF fuel cs).map
        (fun p => ((va * 4096 + vb * 256 + vc * 16 + vd) :: p.1, p.2)) := by
  simp [parseStringBodyF, ha, hb, hc, hd, hhi]

theorem psbF_u4_hi (fuel : Nat) (a b c1 d va vb vc vd : Nat) (cs : List Nat)
    (ha : hexVal a = some va) (hb : hexVal b = some vb) (hc : hexVal c1 = some vc)
    (hd : hexVal d = some vd)
    (hhi : 55296 ≤ va * 4096 + vb * 256 + vc * 16 + vd ∧
      va * 4096 + vb * 256 + vc * 16 + vd ≤ 56319)
    (hlo : isLoEscape cs = true) :
    parseStringBodyF (fuel + 1) (92 :: 117 :: a :: b :: c1 :: d :: cs) =
      (parseStringBodyF fuel (cs.drop 6)).map
        (fun p =>
          ((65536 + (va * 4096 + vb * 256 + vc * 16 + vd - 55296) * 1024 +
              (loEscapeVal cs - 56320)) :: p.1,
            p.2)) := by
  simp [parseStringBodyF, ha, hb, hc, hd, hhi, hlo]

theorem isLoEscape_mk (a b c d va vb vc vd : Nat) (tail : List Nat)
    (ha : hexVal a = some va) (hb : hexVal b = some vb) (hc : hexVal c = some vc)
    (hd : hexVal d = some vd)
    (hr : 56320 ≤ va * 4096 + vb * 256 + vc * 16 + vd ∧
      va * 4096 + vb * 256 + vc * 16 + vd ≤ 57343) :
    isLoEscape (92 :: 117 :: a :: b :: c :: d :: tail) = true ∧
      loEscapeVal (92 :: 117 :: a :: b :: c :: d :: tail) =
        va * 4096 + vb * 256 + vc * 16 + vd := by
  constructor
  · simp [isLoEscape, ha, hb, hc, hd]
    exact hr
  · simp [loEscapeVal, ha, hb, hc, hd]

theorem hex4_hexVals (n : Nat) :
    hexVal (hexDig (n / 4096 % 16)) = some (n / 4096 % 16) ∧
      hexVal (hexDig (n / 256 % 16)) = some (n / 256 % 16) ∧
      hexVal (hexDig (n / 16 % 16)) = some (n / 16 % 16) ∧
      hexVal (hexDig (n % 16)) = some (n % 16) :=
  ⟨hexVal_hexDig _ (by omega), hexVal_hexDig _ (by omega), hexVal_hexDig _ (by omega),
    hexVal_hexDig _ (by omega)⟩

theorem hex4_recompose (n : Nat) (h : n < 65536) :
    n / 4096 % 16 * 4096 + n / 256 % 16 * 256 + n / 16 % 16 * 16 + n % 16 = n := by
  omega

set_option maxRecDepth 4000 in
/-- Round trip of the string escaper against the string scanner, for strings
of Unicode scalar values. -/
theorem parseStringBodyF_round (s : List Nat) :
    ∀ (fuel : Nat) (rest : List Nat), goodStr s = true → s.length < fuel →
      parseStringBodyF fuel (strBody s ++ (34 :: rest)) = some (s, rest) := by
  induction s with
  | nil =>
    intro fuel rest _ hf
    match fuel, hf with
    | fuel + 1, _ =>
      simp only [strBody, List.flatMap_nil, List.nil_append]
      exact psbF_quote fuel rest
  | cons c s' ih =>
    intro fuel rest hgood hf
    have hgc : c < 1114112 ∧ ¬(55296 ≤ c ∧ c ≤ 57343) := by
      have := hgood
      simp only [goodStr, List.all_cons, Bool.and_eq_true, decide_eq_true_eq] at this
      exact this.1
    have hgs' : goodStr s' = true := by
      have := hgood
      simp only [goodStr, List.all_cons, Bool.and_eq_true] at this
      exact this.2
    match fuel, hf with
    | fuel + 1, hf =>
      have hf' : s'.length < fuel := by
        simp only [List.length_cons] at hf
        omega
      have ihr := ih fuel rest hgs' hf'
      have hsb : strBody (c :: s') ++ (34 :: rest) =
          escChar c ++ (strBody s' ++ (34 :: rest)) := by
        simp [strBody, List.append_assoc]
      rw [hsb]
      by_cases h34 : c = 34
      · subst h34
        rw [escChar_quote]
        rw [show ([92, 34] : List Nat) ++ (strBody s' ++ (34 :: rest)) =
          92 :: 34 :: (strBody s' ++ (34 :: rest)) from rfl]
        rw [psbF_simple fuel 34 34 _ (by omega) (by simp [simpleEscape])]
        rw [ihr]
        rfl
      · by_cases h92 : c = 92
        · subst h92
          rw [escChar_backslash]
          rw [show ([92, 92] : List Nat) ++ (strBody s' ++ (34 :: rest)) =
            92 :: 92 :: (strBody s' ++ (34 :: rest)) from rfl]
          rw [psbF_simple fuel 92 92 _ (by omega) (by simp [simpleEscape])]
          rw [ihr]
          rfl
        · by_cases h8 : c = 8
          · subst h8
            rw [show escChar 8 = [92, 98] from rfl]
            rw [show ([92, 98] : List Nat) ++ (strBody s' ++ (34 :: rest)) =
              92 :: 98 :: (strBody s' ++ (34 :: rest)) from rfl]
            rw [psbF_simple fuel 98 8 _ (by omega) (by simp [simpleEscape])]
            rw [ihr]
            rfl
          · by_cases h12 : c = 12
            · subst h12
              rw [show escChar 12 = [92, 102] from rfl]
              rw [show ([92, 102] : List Nat) ++ (strBody s' ++ (34 :: rest)) =
                92 :: 102 :: (strBody s' ++ (34 :: rest)) from rfl]
              rw [psbF_simple fuel 102 12 _ (by omega) (by simp [simpleEscape])]
              rw [ihr]
              rfl
            · by_cases h10 : c = 10
              · subst h10
                rw [show escChar 10 = [92, 110] from rfl]
                rw [show ([92, 110] : List Nat) ++ (strBody s' ++ (34 :: rest)) =
                  92 :: 110 :: (strBody s' ++ (34 :: rest)) from rfl]
                rw [psbF_simple fuel 110 10 _ (by omega) (by simp [simpleEscape])]
                rw [ihr]
                rfl
              · by_cases h13 : c = 13
                · subst h13
                  rw [show escChar 13 = [92, 114] from rfl]
                  rw [show ([92, 114] : List Nat) ++ (strBody s' ++ (34 :: rest)) =
                    92 :: 114 :: (strBody s' ++ (34 :: rest)) from rfl]
                  rw [psbF_simple fuel 114 13 _ (by omega) (by simp [simpleEscape])]
                  rw [ihr]
                  rfl
                · by_cases h9 : c = 9
                  · subst h9
                    rw [show escChar 9 = [92, 116] from rfl]
                    rw [show ([92, 116] : List Nat) ++ (strBody s' ++ (34 :: rest)) =
                      92 :: 116 :: (strBody s' ++ (34 :: rest)) from rfl]
                    rw [psbF_simple fuel 116 9 _ (by omega) (by simp [simpleEscape])]
                    rw [ihr]
                    rfl
                  · by_cases hraw : 32 ≤ c ∧ c < 127
                    · rw [escChar_raw c hraw.1 hraw.2 h34 h92]
                      rw [show ([c] : List Nat) ++ (strBody s' ++ (34 :: rest)) =
                        c :: (strBody s' ++ (34 :: rest)) from rfl]
                      rw [psbF_raw fuel c _ h34 h92 (by omega)]
                      rw [ihr]
                      rfl
                    · by_cases hbmp : c < 65536
                      · rw [escChar_u4 c hbmp hraw h34 h92 h8 h12 h10 h13 h9]
                        obtain ⟨e1, e2, e3, e4⟩ := hex4_hexVals c
                        rw [show (92 :: 117 :: hex4 c) ++ (strBody s' ++ (34 :: rest)) =
                          92 :: 117 :: hexDig (c / 4096 % 16) :: hexDig (c / 256 % 16) ::
                            hexDig (c / 16 % 16) :: hexDig (c % 16) ::
                            (strBody s' ++ (34 :: rest)) from by simp [hex4]]
                        rw [psbF_u4 fuel _ _ _ _ _ _ _ _ _ e1 e2 e3 e4
                          (by rw [hex4_recompose c hbmp]; omega)]
                        rw [ihr]
                        simp only [Option.map_some']
                        rw [hex4_recompose c hbmp]
                      · push_neg at hbmp
                        rw [escChar_astral c hbmp]
                        have hhiv : 55296 + (c - 65536) / 1024 % 1024 < 65536 := by omega
                        have hlov : 56320 + (c - 65536) % 1024 < 65536 := by omega
                        obtain ⟨e1, e2, e3, e4⟩ :=
                          hex4_hexVals (55296 + (c - 65536) / 1024 % 1024)
                        obtain ⟨f1, f2, f3, f4⟩ := hex4_hexVals (56320 + (c - 65536) % 1024)
                        have hrec1 := hex4_recompose _ hhiv
                        have hrec2 := hex4_recompose _ hlov
                        have hdiv : (c - 65536) / 1024 % 1024 = (c - 65536) / 1024 := by
                          have : c - 65536 < 1048576 := by omega
                          omega
                        rw [show ((92 :: 117 :: hex4 (55296 + (c - 65536) / 1024 % 1024)) ++
                            (92 :: 117 :: hex4 (56320 + (c - 65536) % 1024))) ++
                            (strBody s' ++ (34 :: rest)) =
                          92 :: 117 ::
                            hexDig ((55296 + (c - 65536) / 1024 % 1024) / 4096 % 16) ::
                            hexDig ((55296 + (c - 65536) / 1024 % 1024) / 256 % 16) ::
                            hexDig ((55296 + (c - 65536) / 1024 % 1024) / 16 % 16) ::
                            hexDig ((55296 + (c - 65536) / 1024 % 1024) % 16) ::
                            (92 :: 117 ::
                              hexDig ((56320 + (c - 65536) % 1024) / 4096 % 16) ::
                              hexDig ((56320 + (c - 65536) % 1024) / 256 % 16) ::
                              hexDig ((56320 + (c - 65536) % 1024) / 16 % 16) ::
                              hexDig ((56320 + (c - 65536) % 1024) % 16) ::
                              (strBody s' ++ (34 :: rest))) from by simp [hex4]]
                        obtain ⟨hlo1, hlo2⟩ := isLoEscape_mk _ _ _ _ _ _ _ _
                          (strBody s' ++ (34 :: rest)) f1 f2 f3 f4
                          (by rw [hrec2]; omega)
                        rw [psbF_u4_hi fuel _ _ _ _ _ _ _ _ _ e1 e2 e3 e4
                          (by rw [hrec1]; omega) hlo1]
                        rw [show (92 :: 117 ::
                            hexDig ((56320 + (c - 65536) % 1024) / 4096 % 16) ::
                            hexDig ((56320 + (c - 65536) % 1024) / 256 % 16) ::
                            hexDig ((56320 + (c - 65536) % 1024) / 16 % 16) ::
                            hexDig ((56320 + (c - 65536) % 1024) % 16) ::
                            (strBody s' ++ (34 :: rest)) : List Nat).drop 6 =
                          strBody s' ++ (34 :: rest) from rfl]
                        rw [ihr]
                        simp only [Option.map_some']
                        rw [hlo2]
                        have hval : 65536 +
                            ((55296 + (c - 65536) / 1024 % 1024) / 4096 % 16 * 4096 +
                              (55296 + (c - 65536) / 1024 % 1024) / 256 % 16 * 256 +
                              (55296 + (c - 65536) / 1024 % 1024) / 16 % 16 * 16 +
                              (55296 + (c - 65536) / 1024 % 1024) % 16 - 55296) * 1024 +
                            ((56320 + (c - 65536) % 1024) / 4096 % 16 * 4096 +
                              (56320 + (c - 65536) % 1024) / 256 % 16 * 256 +
                              (56320 + (c - 65536) % 1024) / 16 % 16 * 16 +
                              (56320 + (c - 65536) % 1024) % 16 - 56320) = c := by
                          rw [hrec1, hrec2]
                          omega
                        rw [hval]

theorem natDecAux_fuel : ∀ f1 n f2, n < f1 → n < f2 →
    natDecAux f1 n = natDecAux f2 n := by
  intro f1
  induction f1 with
  | zero => intro n f2 h1 _; omega
  | succ f1 ih =>
    intro n f2 h1 h2
    match f2, h2 with
    | f2 + 1, h2 =>
      by_cases hn : n < 10
      · simp [natDecAux, hn]
      · simp only [natDecAux, if_neg hn]
        rw [ih (n / 10) f2 (by omega) (by omega)]

theorem natDec_small (n : Nat) (h : n < 10) : natDec n = [48 + n] := by
  simp [natDec, natDecAux, h]

theorem natDec_split (n : Nat) (h : 10 ≤ n) :
    natDec n = natDec (n / 10) ++ [48 + n % 10] := by
  show natDecAux (n + 1) n = natDecAux (n / 10 + 1) (n / 10) ++ [48 + n % 10]
  rw [show natDecAux (n + 1) n =
    if n < 10 then [48 + n] else natDecAux n (n / 10) ++ [48 + n % 10] from rfl]
  rw [if_neg (by omega)]
  rw [natDecAux_fuel n (n / 10) (n / 10 + 1) (by omega) (by omega)]

theorem natDec_digits : ∀ n, ∀ d ∈ natDec n, 48 ≤ d ∧ d ≤ 57 := by
  intro n
  induction n using Nat.strong_induction_on with
  | _ n ih =>
    by_cases hn : n < 10
    · rw [natDec_small n hn]
      intro d hd
      simp only [List.mem_singleton] at hd
      omega
    · rw [natDec_split n (by omega)]
      intro d hd
      rcases List.mem_append.mp hd with h | h
      · exact ih (n / 10) (by omega) d h
      · simp only [List.mem_singleton] at h
        omega

theorem natDec_foldl0 :
    ∀ n, List.foldl (fun a d => a * 10 + (d - 48)) 0 (natDec n) = n := by
  intro n
  induction n using Nat.strong_induction_on with
  | _ n ih =>
    by_cases hn : n < 10
    · rw [natDec_small n hn]
      simp only [List.foldl_cons, List.foldl_nil]
      omega
    · rw [natDec_split n (by omega)]
      rw [List.foldl_append]
      rw [ih (n / 10) (by omega)]
      simp only [List.foldl_cons, List.foldl_nil]
      omega

theorem natDec_first :
    ∀ n, 1 ≤ n → ∃ c tail, natDec n = c :: tail ∧ 49 ≤ c ∧ c ≤ 57 := by
  intro n
  induction n using Nat.strong_induction_on with
  | _ n ih =>
    intro h1
    by_cases hn : n < 10
    · exact ⟨48 + n, [], natDec_small n hn, by omega, by omega⟩
    · obtain ⟨c, tail, he, hc1, hc2⟩ := ih (n / 10) (by omega) (by omega)
      refine ⟨c, tail ++ [48 + n % 10], ?_, hc1, hc2⟩
      rw [natDec_split n (by omega), he]
      rfl

theorem natDec_ne_nil (n : Nat) : natDec n ≠ [] := by
  by_cases hn : n < 10
  · rw [natDec_small n hn]
    simp
  · rw [natDec_split n (by omega)]
    simp

theorem takeDigits_run : ∀ (ds : List Nat) (acc : Nat) (rest : List Nat),
    (∀ d ∈ ds, isDigit d = true) →
    (rest = [] ∨ ∃ c t, rest = c :: t ∧ isDigit c = false) →
    takeDigits acc (ds ++ rest) =
      (List.foldl (fun a d => a * 10 + (d - 48)) acc ds, rest) := by
  intro ds
  induction ds with
  | nil =>
    intro acc rest _ hr
    rcases hr with h | ⟨c, t, he, hc⟩
    · subst h
      rfl
    · subst he
      show takeDigits acc (c :: t) = (acc, c :: t)
      simp only [takeDigits]
      rw [if_neg (by simp [hc])]
  | cons d ds ih =>
    intro acc rest hd hr
    have hdig : isDigit d = true := hd d (List.mem_cons_self d ds)
    show takeDigits acc (d :: (ds ++ rest)) = _
    simp only [takeDigits]
    rw [if_pos (by simp [hdig])]
    rw [ih _ rest (fun x hx => hd x (List.mem_cons_of_mem d hx)) hr]
    simp only [List.foldl_cons]

theorem okAfter_facts (rest : List Nat) (h : okAfter rest) :
    fracMatches rest = false ∧ expMatches rest = false ∧
      (rest = [] ∨ ∃ c t, rest = c :: t ∧ isDigit c = false) := by
  match rest with
  | [] => exact ⟨rfl, rfl, Or.inl rfl⟩
  | c :: t =>
    have hc : c = 44 ∨ c = 93 ∨ c = 125 := h
    refine ⟨?_, ?_, Or.inr ⟨c, t, rfl, by simp only [isDigit, decide_eq_false_iff_not]; omega⟩⟩
    · match t with
      | [] => rfl
      | d :: t2 =>
        show (if c = 46 then isDigit d else false) = false
        rw [if_neg (by omega)]
    · show expMatches (c :: t) = false
      simp only [expMatches]
      rw [if_neg (by omega)]

theorem parseUNumber_natDec (n : Nat) (rest : List Nat) (h : okAfter rest) :
    parseUNumber (natDec n ++ rest) = some (n, rest) := by
  obtain ⟨hfrac, hexp, hhead⟩ := okAfter_facts rest h
  by_cases h0 : n = 0
  · subst h0
    rw [show natDec 0 = [48] from rfl]
    show parseUNumber (48 :: rest) = some (0, rest)
    simp only [parseUNumber]
    rw [if_pos trivial, hfrac, hexp]
    rfl
  · obtain ⟨c, tail, he, hc1, hc2⟩ := natDec_first n (by omega)
    have htd : ∀ d ∈ tail, isDigit d = true := by
      intro d hd
      have := natDec_digits n d (by rw [he]; exact List.mem_cons_of_mem c hd)
      simp only [isDigit, decide_eq_true_eq]
      omega
    rw [he]
    show parseUNumber (c :: (tail ++ rest)) = some (n, rest)
    simp only [parseUNumber]
    rw [if_neg (by omega), if_pos (by omega)]
    have hp : takeDigits (c - 48) (tail ++ rest) =
        (List.foldl (fun a d => a * 10 + (d - 48)) (c - 48) tail, rest) :=
      takeDigits_run tail (c - 48) rest htd hhead
    simp only [hp]
    rw [hfrac, hexp]
    have hval : List.foldl (fun a d => a * 10 + (d - 48)) (c - 48) tail = n := by
      have h0 := natDec_foldl0 n
      rw [he] at h0
      simp only [List.foldl_cons] at h0
      rw [show 0 * 10 + (c - 48) = c - 48 from by omega] at h0
      exact h0
    rw [hval]
    rfl

theorem parseNumber_intDec (i : Int) (rest : List Nat) (h : okAfter rest) :
    parseNumber (intDec i ++ rest) = some (JValue.num i, rest) := by
  by_cases hneg : i < 0
  · rw [show intDec i = 45 :: natDec i.natAbs from by simp [intDec, hneg]]
    show parseNumber (45 :: (natDec i.natAbs ++ rest)) = some (JValue.num i, rest)
    simp only [parseNumber]
    rw [if_pos trivial]
    rw [parseUNumber_natDec i.natAbs rest h]
    simp only [Option.map_some']
    rw [show -((i.natAbs : Nat) : Int) = i from by omega]
  · obtain ⟨c, tail, he⟩ : ∃ c tail, natDec i.natAbs = c :: tail := by
      match hh : natDec i.natAbs with
      | [] => exact absurd hh (natDec_ne_nil _)
      | c :: tail => exact ⟨c, tail, rfl⟩
    have hcd : 48 ≤ c ∧ c ≤ 57 :=
      natDec_digits _ c (by rw [he]; exact List.mem_cons_self _ _)
    rw [show intDec i = natDec i.natAbs from by simp [intDec, hneg], he]
    show parseNumber (c :: (tail ++ rest)) = some (JValue.num i, rest)
    simp only [parseNumber]
    rw [if_neg (by omega)]
    rw [show (c :: (tail ++ rest)) = natDec i.natAbs ++ rest from by rw [he]; rfl]
    rw [parseUNumber_natDec i.natAbs rest h]
    simp only [Option.map_some']
    rw [show ((i.natAbs : Nat) : Int) = i from by omega]

theorem skipWs_cons (c : Nat) (cs : List Nat) (h : isWs c = false) :
    skipWs (c :: cs) = c :: cs := by
  simp [skipWs, List.dropWhile_cons, h]

theorem escChar_ne_nil (c : Nat) : escChar c ≠ [] := by
  simp only [escChar, hex4]
  split_ifs <;> simp

theorem strBody_len (s : List Nat) : s.length ≤ (strBody s).length := by
  induction s with
  | nil => simp [strBody]
  | cons c s ih =>
    simp only [strBody, List.flatMap_cons, List.length_append, List.length_cons]
    have h1 : 1 ≤ (escChar c).length := by
      match hh : escChar c with
      | [] => exact absurd hh (escChar_ne_nil c)
      | x :: t => simp
    simp only [strBody] at ih
    omega

theorem mem_hex4_lt (n d : Nat) (hd : d ∈ hex4 n) : d < 128 := by
  simp only [hex4, List.mem_cons, List.not_mem_nil, or_false] at hd
  rcases hd with h | h | h | h <;> (subst h; exact hexDig_le _ (by omega))

theorem escChar_ascii (c d : Nat) (hd : d ∈ escChar c) : d < 128 := by
  unfold escChar at hd
  split_ifs at hd with h1 h2 h3 h4 h5 h6 h7 h8 h9
  · simp only [List.mem_cons, List.not_mem_nil, or_false] at hd; omega
  · simp only [List.mem_cons, List.not_mem_nil, or_false] at hd; omega
  · simp only [List.mem_cons, List.not_mem_nil, or_false] at hd; omega
  · simp only [List.mem_cons, List.not_mem_nil, or_false] at hd; omega
  · simp only [List.mem_cons, List.not_mem_nil, or_false] at hd; omega
  · simp only [List.mem_cons, List.not_mem_nil, or_false] at hd; omega
  · simp only [List.mem_cons, List.not_mem_nil, or_false] at hd; omega
  · simp only [List.mem_singleton] at hd; omega
  · simp only [List.mem_cons] at hd
    rcases hd with h | h | h
    · omega
    · omega
    · exact mem_hex4_lt c d h
  · simp only [List.mem_append, List.mem_cons] at hd
    rcases hd with (h | h | h) | (h | h | h)
    · omega
    · omega
    · exact mem_hex4_lt _ d h
    · omega
    · omega
    · exact mem_hex4_lt _ d h

theorem strBody_ascii (s : List Nat) (d : Nat) (hd : d ∈ strBody s) : d < 128 := by
  simp only [strBody, List.mem_flatMap] at hd
  obtain ⟨c, _, hdc⟩ := hd
  exact escChar_ascii c d hdc

theorem intDec_ascii (i : Int) (d : Nat) (hd : d ∈ intDec i) : d < 128 := by
  unfold intDec at hd
  split_ifs at hd with h
  · simp only [List.mem_cons] at hd
    rcases hd with h2 | h2
    · omega
    · have := natDec_digits _ d h2
      omega
  · have := natDec_digits _ d hd
    omega

theorem intDec_cons (i : Int) : ∃ c tail, intDec i = c :: tail ∧
    isWs c = false ∧ (c = 45 ∨ (48 ≤ c ∧ c ≤ 57)) := by
  unfold intDec
  split_ifs with h
  · exact ⟨45, _, rfl, rfl, Or.inl rfl⟩
  · obtain ⟨c, tail, he⟩ : ∃ c tail, natDec i.natAbs = c :: tail := by
      match hh : natDec i.natAbs with
      | [] => exact absurd hh (natDec_ne_nil _)
      | c :: tail => exact ⟨c, tail, rfl⟩
    have hcd := natDec_digits i.natAbs c (by rw [he]; exact List.mem_cons_self _ _)
    refine ⟨c, tail, he, ?_, Or.inr hcd⟩
    simp only [isWs, decide_eq_false_iff_not]
    omega

theorem utf8Encode_ascii :
    ∀ l : List Nat, (∀ c ∈ l, c < 128) → utf8Encode l = some l := by
  intro l
  induction l with
  | nil => intro _; rfl
  | cons c cs ih =>
    intro h
    have hc : c < 128 := h c (List.mem_cons_self _ _)
    simp only [utf8Encode, if_pos hc]
    rw [ih (fun x hx => h x (List.mem_cons_of_mem _ hx))]
    rfl

theorem utf8DecodeF_ascii :
    ∀ (l : List Nat) (fuel : Nat), (∀ c ∈ l, c < 128) → l.length < fuel →
      utf8DecodeF fuel l = some l := by
  intro l
  induction l with
  | nil =>
    intro fuel _ _
    match fuel with
    | 0 => rfl
    | fuel + 1 => rfl
  | cons c cs ih =>
    intro fuel h hf
    match fuel, hf with
    | fuel + 1, hf =>
      have hc : c < 128 := h c (List.mem_cons_self _ _)
      simp only [utf8DecodeF, if_pos hc]
      rw [ih fuel (fun x hx => h x (List.mem_cons_of_mem _ hx))
        (by simp only [List.length_cons] at hf; omega)]
      rfl

theorem utf8Decode_ascii (l : List Nat) (h : ∀ c ∈ l, c < 128) :
    utf8Decode l = some l :=
  utf8DecodeF_ascii l (l.length + 1) h (by omega)

theorem dumpsArrRest_ascii (xs : List JValue)
    (h : ∀ x ∈ xs, ∀ d ∈ dumps x, d < 128) : ∀ d ∈ dumpsArrRest xs, d < 128 := by
  induction xs with
  | nil => intro d hd; simp [dumpsArrRest] at hd
  | cons x xs ih =>
    intro d hd
    simp only [dumpsArrRest, List.mem_cons, List.mem_append] at hd
    rcases hd with h1 | h1 | h1
    · omega
    · exact h x (List.mem_cons_self _ _) d h1
    · exact ih (fun y hy => h y (List.mem_cons_of_mem _ hy)) d h1

theorem dumpsPair_ascii (k : List Nat) (v : JValue)
    (h : ∀ d ∈ dumps v, d < 128) : ∀ d ∈ dumpsPair (k, v), d < 128 := by
  intro d hd
  simp only [dumpsPair, List.mem_cons, List.mem_append] at hd
  rcases hd with h1 | h1 | h1 | h1 | h1
  · omega
  · exact strBody_ascii k d h1
  · omega
  · omega
  · exact h d h1

theorem dumpsObjRest_ascii (ps : List (List Nat × JValue))
    (h : ∀ p ∈ ps, ∀ d ∈ dumps p.2, d < 128) : ∀ d ∈ dumpsObjRest ps, d < 128 := by
  induction ps with
  | nil => intro d hd; simp [dumpsObjRest] at hd
  | cons p ps ih =>
    obtain ⟨k, v⟩ := p
    intro d hd
    simp only [dumpsObjRest, List.mem_cons, List.mem_append] at hd
    rcases hd with h1 | h1 | h1
    · omega
    · exact dumpsPair_ascii k v (h (k, v) (List.mem_cons_self _ _)) d h1
    · exact ih (fun q hq => h q (List.mem_cons_of_mem _ hq)) d h1

theorem dumps_ascii : ∀ v : JValue, ∀ d ∈ dumps v, d < 128 := by
  intro v
  refine jvalue_ind (fun v => ∀ d ∈ dumps v, d < 128) ?_ ?_ ?_ ?_ ?_ ?_ v
  · intro d hd
    simp only [dumps, List.mem_cons, List.not_mem_nil, or_false] at hd
    omega
  · intro b d hd
    cases b <;> simp only [dumps, List.mem_cons, List.not_mem_nil, or_false] at hd <;> omega
  · intro n d hd
    exact intDec_ascii n d hd
  · intro s d hd
    simp only [dumps, List.mem_cons, List.mem_append, List.not_mem_nil, or_false] at hd
    rcases hd with h1 | h1 | h1
    · omega
    · exact strBody_ascii s d h1
    · omega
  · intro xs hxs d hd
    cases xs with
    | nil => simp only [dumps, List.mem_cons, List.not_mem_nil, or_false] at hd; omega
    | cons x xs =>
      simp only [dumps, List.mem_cons, List.mem_append, List.not_mem_nil, or_false] at hd
      rcases hd with h1 | h1 | h1 | h1
      · omega
      · exact hxs x (List.mem_cons_self _ _) d h1
      · exact dumpsArrRest_ascii xs (fun y hy => hxs y (List.mem_cons_of_mem _ hy)) d h1
      · omega
  · intro ps hps d hd
    cases ps with
    | nil => simp only [dumps, List.mem_cons, List.not_mem_nil, or_false] at hd; omega
    | cons p ps =>
      obtain ⟨k, v⟩ := p
      simp only [dumps, List.mem_cons, List.mem_append, List.not_mem_nil, or_false] at hd
      rcases hd with h1 | h1 | h1 | h1
      · omega
      · exact dumpsPair_ascii k v (hps (k, v) (List.mem_cons_self _ _)) d h1
      · exact dumpsObjRest_ascii ps (fun q hq => hps q (List.mem_cons_of_mem _ hq)) d h1
      · omega

theorem mJ_pos (v : JValue) : 1 ≤ mJ v := by
  cases v <;> simp [mJ]

theorem dumpsArrRest_len (xs : List JValue)
    (h : ∀ x ∈ xs, mJ x ≤ (dumps x).length) :
    mList xs ≤ (dumpsArrRest xs).length := by
  induction xs with
  | nil => simp [mList, dumpsArrRest]
  | cons x xs ih =>
    simp only [mList, dumpsArrRest, List.length_cons, List.length_append]
    have h1 := h x (List.mem_cons_self _ _)
    have h2 := ih (fun y hy => h y (List.mem_cons_of_mem _ hy))
    omega

theorem dumpsObjRest_len (ps : List (List Nat × JValue))
    (h : ∀ p ∈ ps, mJ p.2 ≤ (dumps p.2).length) :
    mPairs ps ≤ (dumpsObjRest ps).length := by
  induction ps with
  | nil => simp [mPairs, dumpsObjRest]
  | cons p ps ih =>
    obtain ⟨k, v⟩ := p
    simp only [mPairs, dumpsObjRest, dumpsPair, List.length_cons, List.length_append]
    have h1 := h (k, v) (List.mem_cons_self _ _)
    have h2 := ih (fun q hq => h q (List.mem_cons_of_mem _ hq))
    simp only at h1
    omega

theorem mJ_le_dumps : ∀ v : JValue, mJ v ≤ (dumps v).length := by
  intro v
  refine jvalue_ind (fun v => mJ v ≤ (dumps v).length) ?_ ?_ ?_ ?_ ?_ ?_ v
  · simp [mJ, dumps]
  · intro b
    cases b <;> simp [mJ, dumps]
  · intro n
    obtain ⟨c, tail, he, _, _⟩ := intDec_cons n
    simp only [mJ, dumps, he, List.length_cons]
    omega
  · intro s
    simp only [mJ, dumps, List.length_cons]
    omega
  · intro xs hxs
    cases xs with
    | nil => simp [mJ, mList, dumps]
    | cons x xs =>
      have h1 := hxs x (List.mem_cons_self _ _)
      have h2 := dumpsArrRest_len xs (fun y hy => hxs y (List.mem_cons_of_mem _ hy))
      simp only [mJ, mList, dumps, List.length_cons, List.length_append,
        List.length_singleton]
      omega
  · intro ps hps
    cases ps with
    | nil => simp [mJ, mPairs, dumps]
    | cons p ps =>
      obtain ⟨k, v⟩ := p
      have h1 := hps (k, v) (List.mem_cons_self _ _)
      simp only at h1
      have h2 := dumpsObjRest_len ps (fun q hq => hps q (List.mem_cons_of_mem _ hq))
      simp only [mJ, mPairs, dumps, dumpsPair, List.length_cons, List.length_append,
        List.length_singleton]
      omega

theorem dumps_head (v : JValue) : ∃ c tail, dumps v = c :: tail ∧ isWs c = false ∧
    ¬c = 44 ∧ ¬c = 93 ∧ ¬c = 125 := by
  match v with
  | JValue.null => exact ⟨110, _, rfl, rfl, by omega, by omega, by omega⟩
  | JValue.bool true => exact ⟨116, _, rfl, rfl, by omega, by omega, by omega⟩
  | JValue.bool false => exact ⟨102, _, rfl, rfl, by omega, by omega, by omega⟩
  | JValue.num n =>
    obtain ⟨c, tail, he, hws, hc⟩ := intDec_cons n
    exact ⟨c, tail, he, hws, by omega, by omega, by omega⟩
  | JValue.str s => exact ⟨34, _, rfl, rfl, by omega, by omega, by omega⟩
  | JValue.arr [] => exact ⟨91, _, rfl, rfl, by omega, by omega, by omega⟩
  | JValue.arr (x :: xs) => exact ⟨91, _, rfl, rfl, by omega, by omega, by omega⟩
  | JValue.obj [] => exact ⟨123, _, rfl, rfl, by omega, by omega, by omega⟩
  | JValue.obj (p :: ps) => exact ⟨123, _, rfl, rfl, by omega, by omega, by omega⟩

theorem okAfter_arrRest (xs : List JValue) (rest : List Nat) :
    okAfter (dumpsArrRest xs ++ (93 :: rest)) := by
  cases xs with
  | nil => exact Or.inr (Or.inl rfl)
  | cons x xs => exact Or.inl rfl

theorem okAfter_objRest (ps : List (List Nat × JValue)) (rest : List Nat) :
    okAfter (dumpsObjRest ps ++ (125 :: rest)) := by
  cases ps with
  | nil => exact Or.inr (Or.inr rfl)
  | cons p ps => exact Or.inl rfl

theorem dget?_none_mem {K V : Type} [DecidableEq K] (m : List (K × V)) (k : K)
    (h : dget? m k = none) : ∀ p ∈ m, ¬p.1 = k := by
  induction m with
  | nil => intro p hp; simp at hp
  | cons q m ih =>
    intro p hp
    obtain ⟨k0, v0⟩ := q
    by_cases hk : k0 = k
    · subst hk
      rw [dget?_cons_self] at h
      exact absurd h (by simp)
    · rw [dget?_cons_ne _ _ _ _ hk] at h
      rcases List.mem_cons.mp hp with h2 | h2
      · subst h2
        exact hk
      · exact ih h p h2

theorem dget?_append_none {K V : Type} [DecidableEq K] (a b : List (K × V)) (k : K)
    (ha : dget? a k = none) (hb : dget? b k = none) : dget? (a ++ b) k = none := by
  induction a with
  | nil => exact hb
  | cons q a ih =>
    obtain ⟨k0, v0⟩ := q
    by_cases hk : k0 = k
    · subst hk
      rw [dget?_cons_self] at ha
      exact absurd ha (by simp)
    · rw [dget?_cons_ne _ _ _ _ hk] at ha
      rw [List.cons_append, dget?_cons_ne _ _ _ _ hk]
      exact ih ha

theorem dset_append_absent {K V : Type} [DecidableEq K] (m : List (K × V)) (k : K) (v : V)
    (h : dget? m k = none) : dset m k v = m ++ [(k, v)] := by
  induction m with
  | nil => rfl
  | cons q m ih =>
    obtain ⟨k0, v0⟩ := q
    by_cases hk : k0 = k
    · subst hk
      rw [dget?_cons_self] at h
      exact absurd h (by simp)
    · rw [dget?_cons_ne _ _ _ _ hk] at h
      rw [dset_cons_ne _ _ _ _ _ hk, ih h, List.cons_append]

theorem parse_dumps_round : ∀ fuel : Nat,
    (∀ (v : JValue) (rest : List Nat), wfJ v = true → mJ v ≤ fuel → okAfter rest →
      parseValue fuel (dumps v ++ rest) = some (v, rest)) ∧
    (∀ (x : JValue) (xs : List JValue) (rest : List Nat),
      wfList (x :: xs) = true → mList (x :: xs) ≤ fuel → okAfter rest →
      parseArrLoop fuel (dumps x ++ (dumpsArrRest xs ++ (93 :: rest))) =
        some (x :: xs, rest)) ∧
    (∀ (k : List Nat) (v : JValue) (ps : List (List Nat × JValue))
      (acc : List (List Nat × JValue)) (rest : List Nat),
      wfPairs ((k, v) :: ps) = true → noDupKeys ((k, v) :: ps) = true →
      (∀ p ∈ (k, v) :: ps, dget? acc p.1 = none) →
      mPairs ((k, v) :: ps) ≤ fuel → okAfter rest →
      parseObjLoop fuel
        (strBody k ++ (34 :: (58 :: (dumps v ++ (dumpsObjRest ps ++ (125 :: rest))))))
        acc =
        some (JValue.obj (acc ++ ((k, v) :: ps)), rest)) := by
  intro fuel
  induction fuel with
  | zero =>
    refine ⟨?_, ?_, ?_⟩
    · intro v rest _ hm _
      have := mJ_pos v
      omega
    · intro x xs rest _ hm _
      have := mJ_pos x
      simp only [mList] at hm
      omega
    · intro k v ps acc rest _ _ _ hm _
      have := mJ_pos v
      simp only [mPairs] at hm
      omega
  | succ fuel ih =>
    obtain ⟨ihv, iha, iho⟩ := ih
    refine ⟨?_, ?_, ?_⟩
    · intro v rest hwf hm hok
      cases v with
      | null => rfl
      | bool b => cases b <;> rfl
      | num n =>
        obtain ⟨c, tail, he, hws, hc⟩ := intDec_cons n
        show parseValue (fuel + 1) (intDec n ++ rest) = some (JValue.num n, rest)
        rw [he, List.cons_append]
        simp only [parseValue]
        rw [skipWs_cons _ _ hws]
        dsimp only
        have n34 : ¬c = 34 := by omega
        have n123 : ¬c = 123 := by omega
        have n91 : ¬c = 91 := by omega
        have n116 : ¬c = 116 := by omega
        have n102 : ¬c = 102 := by omega
        have n110 : ¬c = 110 := by omega
        rw [if_neg n34, if_neg n123, if_neg n91, if_neg n116, if_neg n102, if_neg n110]
        rw [if_pos (show c = 45 ∨ isDigit c = true by
          rcases hc with h | h
          · exact Or.inl h
          · exact Or.inr (by simp only [isDigit, decide_eq_true_eq]; omega))]
        rw [show (c :: (tail ++ rest) : List Nat) = intDec n ++ rest from by
          rw [he, List.cons_append]]
        exact parseNumber_intDec n rest hok
      | str s =>
        have hg : goodStr s = true := hwf
        show parseValue (fuel + 1) ((34 :: (strBody s ++ [34])) ++ rest) =
          some (JValue.str s, rest)
        rw [List.cons_append, List.append_assoc]
        simp only [parseValue]
        rw [skipWs_cons 34 _ rfl]
        dsimp only
        rw [if_pos rfl]
        rw [show ([34] ++ rest : List Nat) = 34 :: rest from rfl]
        have hps : parseStringBody (strBody s ++ (34 :: rest)) = some (s, rest) := by
          unfold parseStringBody
          exact parseStringBodyF_round s _ rest hg (by
            have := strBody_len s
            simp only [List.length_append, List.length_cons]
            omega)
        rw [hps]
        rfl
      | arr xs =>
        cases xs with
        | nil => rfl
        | cons x xs =>
          have hwl : wfList (x :: xs) = true := hwf
          show parseValue (fuel + 1)
            ((91 :: (dumps x ++ (dumpsArrRest xs ++ [93]))) ++ rest) =
            some (JValue.arr (x :: xs), rest)
          rw [List.cons_append, List.append_assoc, List.append_assoc]
          rw [show ([93] ++ rest : List Nat) = 93 :: rest from rfl]
          simp only [parseValue]
          rw [skipWs_cons 91 _ rfl]
          dsimp only
          rw [if_neg (by omega), if_neg (by omega), if_pos rfl]
          obtain ⟨c, tail, he, hws, h44, h93, h125⟩ := dumps_head x
          rw [show dumps x ++ (dumpsArrRest xs ++ (93 :: rest)) =
            c :: (tail ++ (dumpsArrRest xs ++ (93 :: rest))) from by
              rw [he, List.cons_append]]
          rw [skipWs_cons _ _ hws]
          dsimp only
          rw [if_neg h93]
          rw [show (c :: (tail ++ (dumpsArrRest xs ++ (93 :: rest))) : List Nat) =
            dumps x ++ (dumpsArrRest xs ++ (93 :: rest)) from by
              rw [he, List.cons_append]]
          rw [iha x xs rest hwl (by simp only [mJ] at hm; omega) hok]
          rfl
      | obj ps =>
        cases ps with
        | nil => rfl
        | cons p ps =>
          obtain ⟨k, v⟩ := p
          have h2 : noDupKeys ((k, v) :: ps) = true ∧ wfPairs ((k, v) :: ps) = true := by
            have h3 := hwf
            simp only [wfJ, Bool.and_eq_true] at h3
            exact h3
          show parseValue (fuel + 1)
            ((123 :: (dumpsPair (k, v) ++ (dumpsObjRest ps ++ [125]))) ++ rest) =
            some (JValue.obj ((k, v) :: ps), rest)
          rw [List.cons_append]
          simp only [parseValue]
          rw [skipWs_cons 123 _ rfl]
          dsimp only
          rw [if_neg (by omega), if_pos rfl]
          rw [show (dumpsPair (k, v) ++ (dumpsObjRest ps ++ [125])) ++ rest =
            34 :: (strBody k ++
              (34 :: (58 :: (dumps v ++ (dumpsObjRest ps ++ (125 :: rest)))))) from by
              simp [dumpsPair, List.append_assoc]]
          rw [skipWs_cons 34 _ rfl]
          dsimp only
          rw [if_neg (by omega), if_pos rfl]
          rw [iho k v ps [] rest h2.2 h2.1 (fun p _ => rfl)
            (by simp only [mJ] at hm; omega) hok]
          rfl
    · intro x xs rest hwl hm hok
      have hwx : wfJ x = true ∧ wfList xs = true := by
        simp only [wfList, Bool.and_eq_true] at hwl
        exact hwl
      simp only [parseArrLoop]
      rw [ihv x (dumpsArrRest xs ++ (93 :: rest)) hwx.1
        (by simp only [mList] at hm; have := mJ_pos x; omega) (okAfter_arrRest xs rest)]
      dsimp only
      cases xs with
      | nil =>
        rw [show dumpsArrRest [] ++ (93 :: rest) = 93 :: rest from rfl]
        rw [skipWs_cons 93 _ rfl]
        dsimp only
        rw [if_neg (by omega), if_pos rfl]
      | cons y ys =>
        rw [show dumpsArrRest (y :: ys) ++ (93 :: rest) =
          44 :: (dumps y ++ (dumpsArrRest ys ++ (93 :: rest))) from by
            simp [dumpsArrRest, List.append_assoc]]
        rw [skipWs_cons 44 _ rfl]
        dsimp only
        rw [if_pos rfl]
        rw [iha y ys rest (by
            simp only [wfList, Bool.and_eq_true] at hwl
            simp only [wfList, Bool.and_eq_true]
            exact hwl.2)
          (by simp only [mList] at hm ⊢; have := mJ_pos x; omega) hok]
        rfl
    · intro k v ps acc rest hwp hnd hfresh hm hok
      have hparts : goodStr k = true ∧ wfJ v = true ∧ wfPairs ps = true := by
        simp only [wfPairs, Bool.and_eq_true] at hwp
        exact ⟨hwp.1.1, hwp.1.2, hwp.2⟩
      simp only [parseObjLoop]
      have hps : parseStringBody
          (strBody k ++ (34 :: (58 :: (dumps v ++ (dumpsObjRest ps ++ (125 :: rest)))))) =
          some (k, 58 :: (dumps v ++ (dumpsObjRest ps ++ (125 :: rest)))) := by
        unfold parseStringBody
        exact parseStringBodyF_round k _ _ hparts.1 (by
          have := strBody_len k
          simp only [List.length_append, List.length_cons]
          omega)
      rw [hps]
      dsimp only
      rw [skipWs_cons 58 _ rfl]
      dsimp only
      rw [if_pos rfl]
      rw [ihv v (dumpsObjRest ps ++ (125 :: rest)) hparts.2.1
        (by simp only [mPairs] at hm; omega) (okAfter_objRest ps rest)]
      dsimp only
      have hknotin : dget? acc k = none := hfresh (k, v) (List.mem_cons_self _ _)
      cases ps with
      | nil =>
        rw [show dumpsObjRest [] ++ (125 :: rest) = 125 :: rest from rfl]
        rw [skipWs_cons 125 _ rfl]
        dsimp only
        rw [if_neg (by omega), if_pos rfl]
        rw [dset_append_absent acc k v hknotin]
      | cons q qs =>
        obtain ⟨k2, v2⟩ := q
        have hknd : dget? ((k2, v2) :: qs) k = none := by
          rcases hh : dget? ((k2, v2) :: qs) k with _ | w
          · rfl
          · simp only [noDupKeys, hh, Option.isSome_some, Bool.not_true,
              Bool.false_and, Bool.false_eq_true] at hnd
        have hnd2 : noDupKeys ((k2, v2) :: qs) = true := by
          simp only [noDupKeys, Bool.and_eq_true] at hnd ⊢
          exact hnd.2
        have hfresh2 : ∀ p ∈ (k2, v2) :: qs, dget? (dset acc k v) p.1 = none := by
          intro p hp
          rw [dset_append_absent acc k v hknotin]
          refine dget?_append_none _ _ _ (hfresh p (List.mem_cons_of_mem _ hp)) ?_
          have hne : ¬p.1 = k := dget?_none_mem _ _ hknd p hp
          rw [dget?_cons_ne _ _ _ _ (fun hh2 => hne hh2.symm)]
          rfl
        rw [show dumpsObjRest ((k2, v2) :: qs) ++ (125 :: rest) =
          44 :: (34 :: (strBody k2 ++
            (34 :: (58 :: (dumps v2 ++ (dumpsObjRest qs ++ (125 :: rest))))))) from by
            simp [dumpsObjRest, dumpsPair, List.append_assoc]]
        rw [skipWs_cons 44 _ rfl]
        dsimp only
        rw [if_pos rfl]
        rw [skipWs_cons 34 _ rfl]
        dsimp only
        rw [if_pos rfl]
        rw [iho k2 v2 qs (dset acc k v) rest hparts.2.2 hnd2 hfresh2
          (by simp only [mPairs] at hm ⊢; have := mJ_pos v; omega) hok]
        rw [dset_append_absent acc k v hknotin, List.append_assoc]
        rfl

theorem parseValue_dumps (v : JValue) (fuel : Nat) (rest : List Nat)
    (hwf : wfJ v = true) (hm : mJ v ≤ fuel) (hok : okAfter rest) :
    parseValue fuel (dumps v ++ rest) = some (v, rest) :=
  (parse_dumps_round fuel).1 v rest hwf hm hok

theorem loads_dumps (v : JValue) (hwf : wfJ v = true) : loads (dumps v) = some v := by
  unfold loads
  have h : parseValue ((dumps v).length + 1) (dumps v) = some (v, []) := by
    have h2 := parseValue_dumps v ((dumps v).length + 1) [] hwf
      (by have := mJ_le_dumps v; omega) trivial
    rw [List.append_nil] at h2
    exact h2
  rw [h]
  rfl

/-- C4, counterexample: the frame round-trip law fails on a JSON-serializable
value.  A Python `str` holding the surrogate pair U+D834 U+DD1E is accepted by
`json.dumps` (each surrogate is escaped as `\uXXXX`, so the payload is pure
ASCII and UTF-8-encodes fine), but `json.loads` in `get_message` recombines
the adjacent escapes into the single code point U+1D11E, so the decoded
message differs from the one sent. -/
theorem C4_counterexample_surrogate_pair_frame :
    ∃ bytes : List Nat,
      send_message (JValue.str [55348, 56606]) = some bytes ∧
      get_message bytes = (JValue.str [119070], []) ∧
      ¬JValue.str [119070] = JValue.str [55348, 56606] := by
  refine ⟨_, rfl, ?_, ?_⟩
  · rfl
  · intro h
    injection h with h2
    exact absurd h2 (by decide)

/-- C4, amended: the frame round-trip law does hold on the well-formed
fragment: for every message value whose strings consist of Unicode scalar
values (no surrogate code points) and whose object keys are duplicate-free,
and whose dumped payload fits the 32-bit length prefix, `send_message`
produces a frame that `get_message` decodes back to exactly the original
value, consuming exactly the frame and leaving the rest of the stream. -/
theorem C4_amended_scalar_frame_round_trip (v : JValue) (rest : List Nat)
    (hwf : wfJ v = true) (hlen : (dumps v).length < 4294967296) :
    ∃ bytes : List Nat, send_message v = some bytes ∧
      get_message (bytes ++ rest) = (v, rest) := by
  have henc : utf8Encode (dumps v) = some (dumps v) :=
    utf8Encode_ascii (dumps v) (fun d hd => dumps_ascii v d hd)
  obtain ⟨pfx, hpfx⟩ : ∃ p, packLE (dumps v).length = some p :=
    ⟨_, by unfold packLE; rw [if_pos hlen]⟩
  refine ⟨pfx ++ dumps v, ?_, ?_⟩
  · unfold send_message
    rw [henc]
    dsimp only
    rw [hpfx]
  · rw [List.append_assoc]
    rw [get_message_frame (dumps v) rest pfx hpfx]
    rw [utf8Decode_ascii (dumps v) (fun d hd => dumps_ascii v d hd)]
    dsimp only
    rw [loads_dumps v hwf]

theorem C4_amended_scalar_frame_round_trip_witness :
    wfJ (JValue.obj [(cp "type", JValue.str (cp "ping"))]) = true ∧
    (dumps (JValue.obj [(cp "type", JValue.str (cp "ping"))])).length < 4294967296 ∧
    ∃ bytes : List Nat,
      send_message (JValue.obj [(cp "type", JValue.str (cp "ping"))]) = some bytes ∧
      get_message (bytes ++ [7]) =
        (JValue.obj [(cp "type", JValue.str (cp "ping"))], [7]) :=
  ⟨rfl, by decide, C4_amended_scalar_frame_round_trip _ [7] rfl (by decide)⟩

end RSSBridge
